import Mathlib

/-!
Verification of the documentation-classification and link-graph core.

The definitions below are a shallow embedding of the TypeScript sources:
`src/core/domains/constants.ts` and `src/core/domains/detector.ts` (domain
registry and classifier), `src/core/domains/classifier.ts` (tier classifier),
`src/utils/markdown.ts` (link extraction), `src/core/links/tracker.ts`
(link graph), the link checker module, and
`src/core/discover/dependencies.ts` (cycle detection).

Modelling conventions:
- JavaScript numbers are modelled exactly over `ℚ` (integral score counters
  over `ℕ`); floating-point rounding is not modelled.
- JavaScript `Map`/`Set` are modelled as association lists with the same
  insertion-order semantics (`set` replaces in place, otherwise appends).
- String primitives (`split`, `toLowerCase`, `endsWith`, ...) are modelled
  by structurally recursive functions over the character list of the string.
- Paths are slash-separated strings; Node `path.relative`/`resolve`/`join`
  are modelled segment-wise with `.`/`..`/empty-segment collapsing.  The
  backslash-to-slash normalisation steps of the source are identities here.
- Asynchronous file reads are modelled by passing the corpus (path, content)
  and the set of existing paths as data; per-file read errors are out of
  scope of the claims below.
-/

set_option maxRecDepth 40000

/-- Does `cs` start with `pre` (character-wise)? -/
def listHasPre : List Char → List Char → Bool
  | [], _ => true
  | _ :: _, [] => false
  | a :: ps, c :: rest => a = c && listHasPre ps rest

/-- Does `cs` contain `sub` as a contiguous substring? -/
def listHasSub (sub : List Char) : List Char → Bool
  | [] => listHasPre sub []
  | c :: rest => listHasPre sub (c :: rest) || listHasSub sub rest

/-- Embedding of JavaScript `hay.includes(needle)`. -/
def containsSubstr (hay needle : String) : Bool := listHasSub needle.data hay.data

/-- Fuel-indexed splitter behind `jsSplit`: leftmost, non-overlapping
occurrences of `sep` delimit the pieces; `cur` is the reversed current
piece.  The fuel is always instantiated above the text length, which the
scan never exceeds. -/
def splitSubAux (sep : List Char) : Nat → List Char → List Char → List (List Char)
  | 0, cur, _ => [cur.reverse]
  | _ + 1, cur, [] => [cur.reverse]
  | n + 1, cur, c :: rest =>
    if sep ≠ [] ∧ listHasPre sep (c :: rest) then
      cur.reverse :: splitSubAux sep n [] ((c :: rest).drop sep.length)
    else
      splitSubAux sep n (c :: cur) rest

/-- Embedding of JavaScript `s.split(sep)` for a non-empty separator. -/
def jsSplit (s sep : String) : List String :=
  (splitSubAux sep.data (s.data.length + 1) [] s.data).map String.mk

/-- Embedding of JavaScript `s.toLowerCase()` for the ASCII text handled by
the tool. -/
def lowerStr (s : String) : String := String.mk (s.data.map Char.toLower)

/-- Embedding of JavaScript `s.endsWith(e)`. -/
def strEndsWith (s e : String) : Bool := listHasPre e.data.reverse s.data.reverse

/-- Segments of a slash-separated path, as produced by JavaScript
`split('/')`. -/
def pathSegs (p : String) : List String := jsSplit p "/"

/-- Node-style path normalisation on a segment list: drops empty and `.`
segments and lets `..` pop the previous segment. -/
def normSegs (segs : List String) : List String :=
  segs.foldl (fun acc s =>
    if s = "" ∨ s = "." then acc
    else if s = ".." then acc.dropLast
    else acc ++ [s]) []

/-- Join path segments back into a slash-separated string. -/
def joinSegs (segs : List String) : String := String.intercalate "/" segs

/-- Segment-wise core of Node `path.relative`: drop the common leading
segments, then climb out of the remaining `from` segments. -/
def relativeSegs : List String → List String → List String
  | [], ts => ts
  | f :: fs, [] => (f :: fs).map (fun _ => "..")
  | f :: fs, t :: ts =>
    if f = t then relativeSegs fs ts
    else (f :: fs).map (fun _ => "..") ++ t :: ts

/-- Embedding of Node `path.relative` on the slash paths used by the tool. -/
def relativeStr (fromP toP : String) : String :=
  joinSegs (relativeSegs (normSegs (pathSegs fromP)) (normSegs (pathSegs toP)))

/-- Embedding of Node `path.resolve(dir, rel)` (and of `path.join`) for a
non-absolute `rel`: concatenate and normalise. -/
def resolveUnder (dir rel : String) : String :=
  joinSegs (normSegs (pathSegs dir ++ pathSegs rel))

/-- Embedding of Node `path.dirname`. -/
def dirnameStr (p : String) : String :=
  let segs := pathSegs p
  if segs.length ≤ 1 then "." else joinSegs segs.dropLast

/-- Last segment of a slash-separated path (`path.split('/').pop() ?? ''`). -/
def lastSeg (p : String) : String := (pathSegs p).getLastD ""

/-- Embedding of Node `path.basename(p, ext)`. -/
def basenameStr (p ext : String) : String :=
  let b := lastSeg p
  if b ≠ ext ∧ strEndsWith b ext then b.dropRight ext.data.length else b

/-- The 15 documentation domains of `constants.ts` (`DOMAINS`), in source
array order. -/
inductive Domain where
  | agents
  | api
  | architecture
  | backups
  | database
  | devops
  | features
  | plans
  | procedures
  | quickstart
  | security
  | standards
  | testing
  | troubleshooting
  | workflows
  deriving DecidableEq, Repr

/-- The `DOMAINS` constant, in its source order. -/
def DOMAINS : List Domain :=
  [.agents, .api, .architecture, .backups, .database, .devops, .features, .plans,
   .procedures, .quickstart, .security, .standards, .testing, .troubleshooting, .workflows]

/-- String id of a domain. -/
def domainId : Domain → String
  | .agents => "agents"
  | .api => "api"
  | .architecture => "architecture"
  | .backups => "backups"
  | .database => "database"
  | .devops => "devops"
  | .features => "features"
  | .plans => "plans"
  | .procedures => "procedures"
  | .quickstart => "quickstart"
  | .security => "security"
  | .standards => "standards"
  | .testing => "testing"
  | .troubleshooting => "troubleshooting"
  | .workflows => "workflows"

/-- Embedding of `isValidDomain`, returning the matching domain value (the
source keeps the string itself after the type-guard check). -/
def strToDomain (s : String) : Option Domain :=
  DOMAINS.find? (fun d => domainId d = s)

/-- The `keywords` arrays of `DOMAIN_DEFINITIONS`, transcribed verbatim. -/
def domainKeywords : Domain → List String
  | .security =>
    ["security", "auth", "authentication", "authorization", "oauth", "jwt",
     "keycloak", "vault", "secrets", "rls", "row-level-security", "rbac",
     "permissions", "access-control", "encryption", "ssl", "tls", "certificate"]
  | .devops =>
    ["devops", "deployment", "deploy", "ci", "cd", "ci/cd", "pipeline",
     "docker", "container", "kubernetes", "k8s", "infrastructure", "terraform",
     "ansible", "aws", "gcp", "azure", "cloud", "environment", "production",
     "staging", "development", "nginx", "load-balancer", "monitoring"]
  | .database =>
    ["database", "db", "postgres", "postgresql", "mysql", "sql", "schema",
     "migration", "migrations", "alembic", "query", "queries", "table",
     "index", "indexes", "rls", "procedure", "function", "trigger",
     "transaction", "orm", "sqlalchemy", "prisma"]
  | .api =>
    ["api", "endpoint", "endpoints", "route", "routes", "rest", "restful",
     "graphql", "grpc", "openapi", "swagger", "specification", "contract",
     "request", "response", "http", "fastapi", "express", "flask", "django"]
  | .standards =>
    ["standard", "standards", "convention", "conventions", "pattern", "patterns",
     "best-practice", "best-practices", "guideline", "guidelines", "style",
     "style-guide", "coding", "naming", "formatting", "linting", "rules"]
  | .testing =>
    ["test", "testing", "tests", "unit", "unit-test", "integration",
     "integration-test", "e2e", "end-to-end", "fixture", "fixtures", "mock",
     "mocking", "stub", "pytest", "jest", "vitest", "playwright", "cypress",
     "coverage", "tdd", "bdd"]
  | .architecture =>
    ["architecture", "design", "system", "system-design", "pattern", "patterns",
     "microservices", "monolith", "serverless", "event-driven", "cqrs",
     "ddd", "domain-driven", "clean-architecture", "hexagonal", "decision",
     "adr", "registry", "diagram"]
  | .features =>
    ["feature", "features", "implementation", "guide", "how-to", "tutorial",
     "admin", "administration", "dashboard", "ui", "component", "module",
     "functionality", "capability"]
  | .quickstart =>
    ["quickstart", "quick-start", "getting-started", "setup", "install",
     "installation", "onboarding", "developer", "dev", "workflow", "start",
     "begin", "intro", "introduction", "new-developer"]
  | .procedures =>
    ["procedure", "procedures", "sop", "standard-operating-procedure", "step",
     "steps", "operational", "operation", "operations", "runbook", "playbook",
     "checklist", "process", "manual"]
  | .workflows =>
    ["workflow", "workflows", "process", "processes", "flow", "flowchart",
     "sequence", "pipeline", "automation", "automated", "multi-step",
     "orchestration", "state-machine"]
  | .agents =>
    ["agent", "agents", "ai", "assistant", "expert", "specialist", "llm",
     "langchain", "rag", "retrieval", "embedding", "vector", "prompt",
     "orchestration", "chain", "tool"]
  | .backups =>
    ["backup", "backups", "restore", "recovery", "disaster", "disaster-recovery",
     "dr", "snapshot", "archive", "retention", "replication", "failover"]
  | .troubleshooting =>
    ["troubleshooting", "troubleshoot", "debug", "debugging", "issue", "issues",
     "problem", "problems", "error", "errors", "fix", "solution", "solutions",
     "resolve", "diagnose", "diagnosis", "log", "logs", "faq"]
  | .plans =>
    ["plan", "plans", "planning", "roadmap", "proposal", "proposals", "rfc",
     "design-doc", "specification", "spec", "milestone", "timeline", "schedule",
     "project", "initiative"]

/-- The `method` field of a detection result (source values
`'path' | 'content' | 'keywords' | 'none'`; the last is `noneM` here). -/
inductive DetectMethod where
  | path
  | content
  | keywords
  | noneM
  deriving DecidableEq, Repr

/-- An entry of `alternativeDomains`. -/
structure AltDomain where
  domain : Domain
  confidence : ℚ
  deriving DecidableEq, Repr

/-- Embedding of `DomainDetectionResult`. -/
structure DomainDetectionResult where
  domain : Option Domain
  confidence : ℚ
  method : DetectMethod
  alternativeDomains : List AltDomain
  deriving DecidableEq, Repr

/-- The domain-folder search loop of `detectDomainFromPath`: first segment
that is a registered domain id, together with its index. -/
def findDomainSeg : List String → Option (Domain × Nat)
  | [] => Option.none
  | p :: ps =>
    match strToDomain p with
    | some d => some (d, 0)
    | Option.none => (findDomainSeg ps).map (fun di => (di.1, di.2 + 1))

/-- Embedding of `detectDomainFromPath` (detector.ts).  The source default
for `docsRoot` is `'.documentation'`; it is always passed explicitly here. -/
def detectDomainFromPath (filePath docsRoot : String) : DomainDetectionResult :=
  let relativePath := relativeStr docsRoot filePath
  let parts := pathSegs relativePath
  match findDomainSeg parts with
  | some di =>
    { domain := some di.1
      confidence := if di.2 = 0 then 1 else 9/10 - (di.2 : ℚ) * (1/10)
      method := DetectMethod.path
      alternativeDomains := [] }
  | Option.none =>
    let fileName := basenameStr filePath ".md"
    match DOMAINS.find? (fun d => containsSubstr fileName (domainId d)) with
    | some d =>
      { domain := some d, confidence := 6/10, method := DetectMethod.path,
        alternativeDomains := [] }
    | Option.none =>
      { domain := Option.none, confidence := 0, method := DetectMethod.path,
        alternativeDomains := [] }

/-- JavaScript `\w` word characters. -/
def isWordChar (c : Char) : Bool := c.isAlphanum || c = '_'

/-- Word-char status of an optional character (outside of the text counts as
non-word). -/
def optWord : Option Char → Bool
  | some c => isWordChar c
  | Option.none => false

/-- Regex `\b`: a boundary lies between two positions whose word-char status
differs. -/
def wordBoundary (a b : Option Char) : Bool := optWord a != optWord b

/-- Does `\bkw\b` match at the start of `cs`, where `prev` is the character
just before `cs` in the full text? -/
def wwMatchAt (kw : List Char) (prev : Option Char) (cs : List Char) : Bool :=
  listHasPre kw cs &&
  wordBoundary prev kw.head? &&
  wordBoundary kw.getLast? (cs.drop kw.length).head?

/-- Fuel-indexed left-to-right non-overlapping scan counting `\bkw\b`
matches (the fuel is always instantiated with the text length, which the
scan never exceeds since every step consumes at least one character). -/
def countWWAux (kw : List Char) : Nat → Option Char → List Char → Nat
  | 0, _, _ => 0
  | _ + 1, _, [] => 0
  | n + 1, prev, c :: rest =>
    if wwMatchAt kw prev (c :: rest) then
      1 + countWWAux kw n kw.getLast? (rest.drop (kw.length - 1))
    else
      countWWAux kw n (some c) rest

/-- Count of whole-word occurrences of `kw` in `text`: the embedding of
`text.match(new RegExp('\\b' + escapeRegExp(kw) + '\\b', 'gi')).length`
applied (as in the source) to already-lowercased text and lowercase
keywords. -/
def countWholeWord (text kw : String) : Nat :=
  countWWAux kw.data text.data.length Option.none text.data

/-- JavaScript `Map` update used by `getAllKeywords`: append the domain to an
existing keyword entry in place, otherwise append a new entry. -/
def assocAppendDomain (m : List (String × List Domain)) (kw : String) (d : Domain) :
    List (String × List Domain) :=
  if m.any (fun e => e.1 = kw) then
    m.map (fun e => if e.1 = kw then (e.1, e.2 ++ [d]) else e)
  else m ++ [(kw, [d])]

/-- Embedding of `getAllKeywords` (constants.ts): keyword → owning domains,
in `Map` insertion order. -/
def getAllKeywords : List (String × List Domain) :=
  DOMAINS.foldl (fun m d =>
    (domainKeywords d).foldl (fun m2 kw => assocAppendDomain m2 kw d) m) []

/-- JavaScript `Map` update for the per-domain score accumulator of
`detectDomainFromContent`. -/
def bumpScore (m : List (Domain × Nat)) (d : Domain) (k : Nat) : List (Domain × Nat) :=
  if m.any (fun e => e.1 = d) then
    m.map (fun e => if e.1 = d then (e.1, e.2 + k) else e)
  else m ++ [(d, k)]

/-- Stable descending insertion for domain scores (the comparator
`(a, b) => b[1] - a[1]` of the source under the ES2019 stable-sort
guarantee). -/
def insertScoreDesc (x : Domain × Nat) : List (Domain × Nat) → List (Domain × Nat)
  | [] => [x]
  | y :: ys => if x.2 ≥ y.2 then x :: y :: ys else y :: insertScoreDesc x ys

/-- Stable descending sort of domain scores. -/
def sortScoresDesc (l : List (Domain × Nat)) : List (Domain × Nat) :=
  l.foldr insertScoreDesc []

/-- Keyword-score accumulation of `detectDomainFromContent`: per-domain
whole-word match counts, filtered to positive scores and sorted by
descending score. -/
def contentScoresSorted (content : String) : List (Domain × Nat) :=
  let lowerContent := lowerStr content
  let domainScores :=
    getAllKeywords.foldl (fun m e =>
      let count := countWholeWord lowerContent e.1
      if count > 0 then e.2.foldl (fun m2 d => bumpScore m2 d count) m else m) []
  sortScoresDesc (domainScores.filter (fun e => e.2 > 0))

/-- Result construction of `detectDomainFromContent` from the sorted score
list: the empty case keeps the initial `content`-method result, otherwise
the top domain wins with the blended confidence and up to three
alternates. -/
def contentResultOf : List (Domain × Nat) → DomainDetectionResult
  | [] =>
    { domain := Option.none, confidence := 0, method := DetectMethod.content,
      alternativeDomains := [] }
  | top :: rest =>
    let maxScore := top.2
    let secondScore := (rest.head?.map (fun e => e.2)).getD 0
    let scoreDiff : ℚ := (maxScore : ℚ) - (secondScore : ℚ)
    let normalizedScore := min ((maxScore : ℚ) / 20) 1
    let scoreDiffFactor := min (scoreDiff / 10) (3/10)
    let conf := min (1/2 + normalizedScore * (3/10) + scoreDiffFactor) (19/20)
    { domain := some top.1
      confidence := conf
      method := DetectMethod.keywords
      alternativeDomains :=
        (rest.take 3).map (fun e =>
          { domain := e.1, confidence := ((e.2 : ℚ) / (maxScore : ℚ)) * conf * (8/10) }) }

/-- Embedding of `detectDomainFromContent` (detector.ts). -/
def detectDomainFromContent (content : String) : DomainDetectionResult :=
  contentResultOf (contentScoresSorted content)

/-- Embedding of `detectDomain` (detector.ts) — the `classifyDomain`
operation of the specification. -/
def detectDomain (filePath : String) (content : Option String) (docsRoot : String) :
    DomainDetectionResult :=
  let pathResult := detectDomainFromPath filePath docsRoot
  if pathResult.domain.isSome ∧ pathResult.confidence ≥ 9/10 then
    pathResult
  else
    match content with
    | some c =>
      let contentResult := detectDomainFromContent c
      match pathResult.domain with
      | some pd =>
        if contentResult.confidence > pathResult.confidence then
          { contentResult with
              alternativeDomains :=
                { domain := pd, confidence := pathResult.confidence } ::
                  contentResult.alternativeDomains }
        else pathResult
      | Option.none => contentResult
    | Option.none => pathResult

/-- JavaScript regex `\s` whitespace for the ASCII texts handled here. -/
def isJsSpace (c : Char) : Bool :=
  c = ' ' || c = '\t' || c = '\n' || c = '\r' || c = '\x0b' || c = '\x0c'

/-- Embedding of JavaScript `s.startsWith(p)`. -/
def strBeginsWith (s p : String) : Bool := listHasPre p.data s.data

/-- One raw match of the inline-link regex: captured text, url, optional
title capture, and the match length. -/
structure LinkHit where
  text : String
  url : String
  title : Option String
  len : Nat
  deriving DecidableEq, Repr

/-- Attempt to match the inline-link regex
`\[([^\]]*)\]\(([^)\s]+)(?:\s+"([^"]*)")?\)` of `extractLinks` at the start
of `cs`.  The character classes are disjoint from their terminators, so the
only backtracking point of the regex is the optional title group, which
either matches completely or is dropped. -/
def linkMatchAt (cs : List Char) : Option LinkHit :=
  match cs with
  | '[' :: rest1 =>
    let text := rest1.takeWhile (fun c => c ≠ ']')
    (match rest1.drop text.length with
     | ']' :: '(' :: rest2 =>
       let url := rest2.takeWhile (fun c => !(c = ')' || isJsSpace c))
       if url.isEmpty then Option.none
       else
         let rest3 := rest2.drop url.length
         let consumed0 := 1 + text.length + 2 + url.length
         (match rest3 with
          | ')' :: _ => some ⟨String.mk text, String.mk url, Option.none, consumed0 + 1⟩
          | c :: _ =>
            if isJsSpace c then
              let ws := rest3.takeWhile isJsSpace
              (match rest3.drop ws.length with
               | '"' :: rest4 =>
                 let title := rest4.takeWhile (fun c2 => c2 ≠ '"')
                 (match rest4.drop title.length with
                  | '"' :: ')' :: _ =>
                    some ⟨String.mk text, String.mk url, some (String.mk title),
                      consumed0 + ws.length + title.length + 3⟩
                  | _ => Option.none)
               | _ => Option.none)
            else Option.none
          | [] => Option.none)
     | _ => Option.none)
  | _ => Option.none

/-- Fuel-indexed scan of one line for link matches (the `while exec` loop of
`extractLinks`), left-to-right and non-overlapping, returning each hit with
its start index. -/
def scanLineLinks : Nat → Nat → List Char → List (LinkHit × Nat)
  | 0, _, _ => []
  | _ + 1, _, [] => []
  | n + 1, pos, c :: rest =>
    match linkMatchAt (c :: rest) with
    | some hit => (hit, pos) :: scanLineLinks n (pos + hit.len) ((c :: rest).drop hit.len)
    | Option.none => scanLineLinks n (pos + 1) rest

/-- Embedding of `MarkdownLink` (utils/markdown.ts). -/
structure MarkdownLink where
  text : String
  url : String
  title : Option String
  isInternal : Bool
  lineNumber : Nat
  startIndex : Nat
  endIndex : Nat
  deriving DecidableEq, Repr

/-- The `isInternal` test of `extractLinks`. -/
def isInternalUrl (url : String) : Bool :=
  !(strBeginsWith url "http://") && !(strBeginsWith url "https://") &&
  !(strBeginsWith url "mailto:") && !(strBeginsWith url "#")

/-- Embedding of `extractLinks` (utils/markdown.ts): per line, all matches
of the inline-link regex, with 1-based line numbers; the title is kept only
when the capture is truthy (non-empty). -/
def extractLinks (content : String) : List MarkdownLink :=
  ((jsSplit content "\n").enum.map (fun le =>
    (scanLineLinks (le.2.data.length + 1) 0 le.2.data).map (fun hp =>
      { text := hp.1.text
        url := hp.1.url
        title := match hp.1.title with
          | some t => if t = "" then Option.none else some t
          | Option.none => Option.none
        isInternal := isInternalUrl hp.1.url
        lineNumber := le.1 + 1
        startIndex := hp.2
        endIndex := hp.2 + hp.1.len }))).flatten

/-- Embedding of `LinkNode` (tracker.ts); the optional `title` field of the
source interface is never populated by `buildLinkGraph` and is omitted. -/
structure LinkNode where
  id : String
  path : String
  domain : Option Domain
  inDegree : Nat
  outDegree : Nat
  deriving DecidableEq, Repr

/-- Embedding of `LinkEdge` (tracker.ts). -/
structure LinkEdge where
  source : String
  target : String
  linkText : String
  lineNumber : Nat
  deriving DecidableEq, Repr

/-- Embedding of `LinkGraph` (tracker.ts). -/
structure LinkGraph where
  nodes : List LinkNode
  edges : List LinkEdge
  deriving DecidableEq, Repr

/-- The node `Map` of `buildLinkGraph`, keyed by the relative path (which
is also stored in the node's `path`/`id` fields): `has`. -/
def nodesHas (m : List LinkNode) (p : String) : Bool := m.any (fun n => n.path = p)

/-- `Map.set`: replace in place when the key exists, otherwise append. -/
def nodesSet (m : List LinkNode) (n : LinkNode) : List LinkNode :=
  if m.any (fun x => x.path = n.path) then
    m.map (fun x => if x.path = n.path then n else x)
  else m ++ [n]

/-- `Map.get` followed by an in-place mutation of the node: a no-op when
the key is absent (the `if (sourceNode)` guards of the source). -/
def nodesUpdate (m : List LinkNode) (p : String) (f : LinkNode → LinkNode) : List LinkNode :=
  m.map (fun x => if x.path = p then f x else x)

/-- Per-file body of the first pass of `buildLinkGraph`: insert one node
with the path-detected domain and zero degrees. -/
def insertNode (docsPath : String) (m : List LinkNode) (f : String × String) :
    List LinkNode :=
  let relPath := relativeStr docsPath f.1
  nodesSet m
    { id := relPath, path := relPath,
      domain := (detectDomainFromPath f.1 docsPath).domain,
      inDegree := 0, outDegree := 0 }

/-- First pass of `buildLinkGraph`: one node per file. -/
def initNodes (docsPath : String) (files : List (String × String)) : List LinkNode :=
  files.foldl (insertNode docsPath) []

/-- The key list of the node map (one key per node, in map order). -/
def keyList (m : List LinkNode) : List String := m.map (fun n => n.path)

/-- Per-link target resolution of the second pass of `buildLinkGraph`:
strip the `#anchor`; a pure-anchor target is skipped (`none`); a leading `/`
resolves from the docs root; anything else resolves against the referencing
file's directory and is re-relativised to the docs root.  (The backslash
normalisation of the source is an identity here.) -/
def resolveGraphTarget (docsPath fileDir url : String) : Option String :=
  let pathPart := (jsSplit url "#").getD 0 ""
  if pathPart = "" then Option.none
  else if strBeginsWith pathPart "/" then some (pathPart.drop 1)
  else some (relativeStr docsPath (resolveUnder fileDir pathPart))

/-- Per-link body of the second pass of `buildLinkGraph`: push an edge and
bump both degree counters when the resolved target is a known node. -/
def linkStep (docsPath relPath fileDir : String)
    (acc : List LinkNode × List LinkEdge) (link : MarkdownLink) :
    List LinkNode × List LinkEdge :=
  if link.isInternal then
    match resolveGraphTarget docsPath fileDir link.url with
    | some targetPath =>
      if nodesHas acc.1 targetPath then
        (nodesUpdate (nodesUpdate acc.1 relPath
            (fun n => { n with outDegree := n.outDegree + 1 })) targetPath
            (fun n => { n with inDegree := n.inDegree + 1 }),
         acc.2 ++ [{ source := relPath, target := targetPath,
                     linkText := link.text, lineNumber := link.lineNumber }])
      else acc
    | Option.none => acc
  else acc

/-- Per-file body of the second pass of `buildLinkGraph`. -/
def edgeStep (docsPath : String) (acc : List LinkNode × List LinkEdge)
    (f : String × String) : List LinkNode × List LinkEdge :=
  (extractLinks f.2).foldl
    (linkStep docsPath (relativeStr docsPath f.1) (dirnameStr f.1)) acc

/-- Embedding of `buildLinkGraph` (tracker.ts): the corpus is passed as
`(absolute path, content)` pairs (the result of `findMarkdownFiles` plus the
reads of the second pass). -/
def buildLinkGraph (docsPath : String) (files : List (String × String)) : LinkGraph :=
  let final := files.foldl (edgeStep docsPath) (initNodes docsPath files, [])
  { nodes := final.1, edges := final.2 }

/-- Embedding of `findOrphanFiles` (tracker.ts). -/
def findOrphanFiles (docsPath : String) (files : List (String × String)) : List String :=
  (((buildLinkGraph docsPath files).nodes.filter (fun n => n.inDegree = 0)).filter
    (fun n => !(["INDEX.md", "REGISTRY.md", "README.md"].contains (lastSeg n.path)))).map
    (fun n => n.path)

/-- Embedding of `BrokenLink` (link checker). -/
structure BrokenLink where
  sourceFile : String
  targetPath : String
  lineNumber : Nat
  linkText : String
  reason : String
  deriving DecidableEq, Repr

/-- Embedding of `CrossDomainLink` (link checker). -/
structure CrossDomainLink where
  sourceFile : String
  sourceDomain : Option Domain
  targetPath : String
  targetDomain : Option Domain
  linkText : String
  deriving DecidableEq, Repr

/-- Embedding of `ExternalLink` (link checker); the optional `status` field
is never populated without external checking and is omitted. -/
structure ExternalLink where
  sourceFile : String
  url : String
  linkText : String
  deriving DecidableEq, Repr

/-- Embedding of `LinkStats`; `topConnectedDomains` entries are
(from-domain, to-domain, count) triples. -/
structure LinkStats where
  internalLinks : Nat
  externalLinks : Nat
  crossDomainLinks : Nat
  brokenPercentage : ℚ
  topConnectedDomains : List (String × String × Nat)
  deriving DecidableEq, Repr

/-- Embedding of `LinkCheckResult`. -/
structure LinkCheckResult where
  totalFiles : Nat
  totalLinks : Nat
  validLinks : Nat
  brokenLinks : List BrokenLink
  crossDomainLinks : List CrossDomainLink
  externalLinks : List ExternalLink
  stats : LinkStats
  deriving DecidableEq, Repr

/-- State threaded through the `checkLinks` loop: the result under
construction and the `domainConnections` counter map. -/
structure CheckState where
  res : LinkCheckResult
  conns : List (String × Nat)
  deriving DecidableEq, Repr

/-- Embedding of `resolveLink` (link checker): anchor-only targets resolve
to the file's directory (trivially valid), a leading `/` joins onto the
docs root, anything else resolves against the file's directory. -/
def resolveLink (linkUrl fileDir docsPath : String) : String :=
  let pathPart := (jsSplit linkUrl "#").getD 0 ""
  if pathPart = "" then fileDir
  else if strBeginsWith pathPart "/" then resolveUnder docsPath pathPart
  else resolveUnder fileDir pathPart

/-- The `domainConnections` key of `checkLinks`. -/
def connKey (sd td : Domain) : String := domainId sd ++ " -> " ++ domainId td

/-- `Map` update for the `domainConnections` counters. -/
def bumpConn (m : List (String × Nat)) (k : String) : List (String × Nat) :=
  if m.any (fun e => e.1 = k) then
    m.map (fun e => if e.1 = k then (e.1, e.2 + 1) else e)
  else m ++ [(k, 1)]

/-- Per-link body of the `checkLinks` loop. -/
def checkLinkStep (docsPath : String) (fsPaths : List String)
    (filePath relFile fileDir : String) (st : CheckState) (link : MarkdownLink) :
    CheckState :=
  let res0 := st.res
  let res := { res0 with totalLinks := res0.totalLinks + 1 }
  if link.isInternal then
    let res := { res with stats :=
      { res.stats with internalLinks := res.stats.internalLinks + 1 } }
    let targetPath := resolveLink link.url fileDir docsPath
    if fsPaths.contains targetPath then
      let res := { res with validLinks := res.validLinks + 1 }
      let sourceDomain := (detectDomainFromPath filePath docsPath).domain
      let targetDomain := (detectDomainFromPath targetPath docsPath).domain
      match sourceDomain, targetDomain with
      | some sd, some td =>
        if sd ≠ td then
          { res := { res with
              stats := { res.stats with
                crossDomainLinks := res.stats.crossDomainLinks + 1 }
              crossDomainLinks := res.crossDomainLinks ++
                [{ sourceFile := relFile, sourceDomain := some sd,
                   targetPath := link.url, targetDomain := some td,
                   linkText := link.text }] }
            conns := bumpConn st.conns (connKey sd td) }
        else { st with res := res }
      | _, _ => { st with res := res }
    else
      { st with res := { res with brokenLinks := res.brokenLinks ++
          [{ sourceFile := relFile, targetPath := link.url,
             lineNumber := link.lineNumber, linkText := link.text,
             reason := "Target file does not exist" }] } }
  else
    { st with res := { res with
        externalLinks := res.externalLinks ++
          [{ sourceFile := relFile, url := link.url, linkText := link.text }]
        stats := { res.stats with externalLinks := res.stats.externalLinks + 1 } } }

/-- Per-file body of the `checkLinks` loop. -/
def checkFileStep (docsPath : String) (fsPaths : List String) (st : CheckState)
    (f : String × String) : CheckState :=
  (extractLinks f.2).foldl
    (checkLinkStep docsPath fsPaths f.1 (relativeStr docsPath f.1) (dirnameStr f.1)) st

/-- Stable descending insertion for the top-connected-domain triples (the
comparator `(a, b) => b.count - a.count`). -/
def insertConnDesc (x : String × String × Nat) :
    List (String × String × Nat) → List (String × String × Nat)
  | [] => [x]
  | y :: ys => if x.2.2 ≥ y.2.2 then x :: y :: ys else y :: insertConnDesc x ys

/-- Stable descending sort of the connection triples. -/
def sortConnsDesc (l : List (String × String × Nat)) : List (String × String × Nat) :=
  l.foldr insertConnDesc []

/-- Embedding of `checkLinks` (link checker module): the corpus is passed as
`(absolute path, content)` pairs and the filesystem as the list of paths
for which `pathExists` holds.  `checkExternal` only tracks external links
in the source and has no further effect; logging is omitted. -/
def checkLinks (docsPath : String) (domainFilter : Option String)
    (files0 : List (String × String)) (fsPaths : List String) : LinkCheckResult :=
  let files : List (String × String) := match domainFilter with
    | some d => files0.filter (fun (f : String × String) =>
        let rel := relativeStr docsPath f.1
        strBeginsWith rel (d ++ "/") || strBeginsWith rel (d ++ "\\"))
    | Option.none => files0
  let st0 : CheckState :=
    { res := { totalFiles := files.length, totalLinks := 0, validLinks := 0,
               brokenLinks := [], crossDomainLinks := [], externalLinks := [],
               stats := { internalLinks := 0, externalLinks := 0,
                          crossDomainLinks := 0, brokenPercentage := 0,
                          topConnectedDomains := [] } }
      conns := [] }
  let st := files.foldl (checkFileStep docsPath fsPaths) st0
  let res := st.res
  let res := { res with stats := { res.stats with brokenPercentage :=
      if res.stats.internalLinks > 0 then
        ((res.brokenLinks.length : ℚ) / (res.stats.internalLinks : ℚ)) * 100
      else 0 } }
  { res with stats := { res.stats with topConnectedDomains :=
      (sortConnsDesc (st.conns.map (fun (e : String × Nat) =>
        let parts := jsSplit e.1 " -> "
        (parts.getD 0 "", parts.getD 1 "", e.2)))).take 10 } }

/-- The broken-link entries per corpus file that the specification expects
`checkLinks` to record: one per internal link whose resolved target is not
an existing path, carrying the original target string, the link text, the
1-based line number and the recorded reason. -/
def perFileBroken (docsPath : String) (fsPaths : List String) (f : String × String) :
    List BrokenLink :=
  ((extractLinks f.2).filter (fun l =>
      l.isInternal && !(fsPaths.contains (resolveLink l.url (dirnameStr f.1) docsPath)))).map
    (fun l => BrokenLink.mk (relativeStr docsPath f.1) l.url l.lineNumber l.text
      "Target file does not exist")

/-- All broken-link entries the specification expects, in corpus order. -/
def expectedBrokenLinks (docsPath : String) (files : List (String × String))
    (fsPaths : List String) : List BrokenLink :=
  (files.map (perFileBroken docsPath fsPaths)).flatten

/-- The 5 document tiers of `classifier.ts` (`TIERS`), in source order. -/
inductive Tier where
  | guide
  | standard
  | «example»
  | reference
  | admin
  deriving DecidableEq, Repr

/-- The `TIERS` constant, in its source order. -/
def TIERS : List Tier := [.guide, .standard, .«example», .reference, .admin]

/-- Position of a tier in the `TIERS` iteration order. -/
def tierIdx : Tier → Nat
  | .guide => 0
  | .standard => 1
  | .«example» => 2
  | .reference => 3
  | .admin => 4

/-- The `indicators` arrays of `TIER_DEFINITIONS`, transcribed verbatim. -/
def tierIndicators : Tier → List String
  | .guide =>
    ["how to", "step by step", "tutorial", "guide", "walkthrough",
     "getting started", "learn", "implement", "build", "create"]
  | .standard =>
    ["standard", "convention", "rule", "must", "should", "must not",
     "should not", "required", "recommended", "best practice", "guideline"]
  | .«example» =>
    ["example", "sample", "template", "snippet", "code", "demo",
     "showcase", "pattern example", "usage example"]
  | .reference =>
    ["reference", "specification", "api", "complete", "comprehensive",
     "all", "full list", "documentation", "schema", "interface"]
  | .admin =>
    ["admin", "administrative", "operational", "maintenance", "ops",
     "manage", "configure", "setup", "deployment", "monitoring"]

/-- The `sizeRange` fields of `TIER_DEFINITIONS`, in KB. -/
def tierSizeRange : Tier → Nat × Nat
  | .guide => (15, 30)
  | .standard => (5, 15)
  | .«example» => (3, 10)
  | .reference => (30, 100)
  | .admin => (10, 20)

/-- A mini pattern language for the heading-pattern regexes of
`TIER_DEFINITIONS`: case-insensitive literals, an optional literal (`s?`,
`'?`), `\s*` and `\d+`. -/
inductive HPat where
  | lit : String → HPat
  | optLit : String → HPat
  | ws : HPat
  | digits : HPat
  deriving DecidableEq, Repr

/-- The apostrophe character, for the `don'?t` heading alternative. -/
def apos : String := String.mk [Char.ofNat 39]

/-- Consume a case-insensitive literal at the head of `cs`. -/
def dropLitCI : List Char → List Char → Option (List Char)
  | [], cs => some cs
  | _ :: _, [] => Option.none
  | a :: ps, c :: rest =>
    if a.toLower = c.toLower then dropLitCI ps rest else Option.none

/-- Match a sequence of mini patterns at the head of `cs`, returning the
rest on success.  `optLit` is greedy with backtracking (try with, then
without); `ws` and `digits` are greedy without backtracking, which is exact
here because no alternative continues with a whitespace or digit
character. -/
def matchHPats : List HPat → List Char → Option (List Char)
  | [], cs => some cs
  | .lit s :: ps, cs =>
    (match dropLitCI s.data cs with
     | some rest => matchHPats ps rest
     | Option.none => Option.none)
  | .optLit s :: ps, cs =>
    (match dropLitCI s.data cs with
     | some rest =>
       (match matchHPats ps rest with
        | some r => some r
        | Option.none => matchHPats ps cs)
     | Option.none => matchHPats ps cs)
  | .ws :: ps, cs => matchHPats ps (cs.dropWhile isJsSpace)
  | .digits :: ps, cs =>
    let run := cs.takeWhile (fun c => c.isDigit)
    if run.isEmpty then Option.none else matchHPats ps (cs.drop run.length)

/-- First alternative (in regex order) that matches at the head of `cs`. -/
def matchAlts (alts : List (List HPat)) (cs : List Char) : Option (List Char) :=
  match alts with
  | [] => Option.none
  | a :: rest =>
    (match matchHPats a cs with
     | some r => some r
     | Option.none => matchAlts rest cs)

/-- The `headingPatterns` of `TIER_DEFINITIONS` as alternative lists (each
source regex is `^#+\s*(alt1|alt2|...)` with flags `gim`). -/
def tierHeadingPatterns : Tier → List (List (List HPat))
  | .guide =>
    [[[.lit "prerequisite", .optLit "s"], [.lit "requirement", .optLit "s"]],
     [[.lit "step", .ws, .digits], [.lit "first"], [.lit "next"], [.lit "then"],
      [.lit "finally"]],
     [[.lit "overview"], [.lit "introduction"], [.lit "getting started"]],
     [[.lit "example"], [.lit "demo"], [.lit "try it"]]]
  | .standard =>
    [[[.lit "rule", .optLit "s"], [.lit "guideline", .optLit "s"],
      [.lit "convention", .optLit "s"]],
     [[.lit "do"], [.lit "don", .optLit apos, .lit "t"], [.lit "avoid"],
      [.lit "prefer"]],
     [[.lit "naming"], [.lit "formatting"], [.lit "style"]],
     [[.lit "required"], [.lit "recommended"], [.lit "optional"]]]
  | .«example» =>
    [[[.lit "example"], [.lit "sample"], [.lit "template"]],
     [[.lit "code"], [.lit "snippet"], [.lit "usage"]],
     [[.lit "input"], [.lit "output"], [.lit "result"]]]
  | .reference =>
    [[[.lit "api"], [.lit "schema"], [.lit "interface"], [.lit "type"]],
     [[.lit "parameter", .optLit "s"], [.lit "argument", .optLit "s"],
      [.lit "option", .optLit "s"]],
     [[.lit "method", .optLit "s"], [.lit "function", .optLit "s"],
      [.lit "endpoint", .optLit "s"]],
     [[.lit "properties"], [.lit "fields"], [.lit "attributes"]]]
  | .admin =>
    [[[.lit "configuration"], [.lit "setup"], [.lit "installation"]],
     [[.lit "maintenance"], [.lit "monitoring"], [.lit "logging"]],
     [[.lit "backup"], [.lit "restore"], [.lit "recovery"]],
     [[.lit "troubleshooting"], [.lit "debugging"]]]

/-- Fuel-indexed generic non-overlapping scanner.  The matcher receives
whether the position is a line start and the remaining text, and returns
the consumed length on success (always at least 1 for the patterns used
here); the fuel is instantiated with the text length. -/
def scanCountAux (m : Bool → List Char → Option Nat) :
    Nat → Bool → List Char → Nat
  | 0, _, _ => 0
  | _ + 1, _, [] => 0
  | n + 1, atStart, c :: rest =>
    match m atStart (c :: rest) with
    | some len =>
      let k := max len 1
      1 + scanCountAux m n (((c :: rest).take k).getLastD ' ' = '\n') ((c :: rest).drop k)
    | Option.none => scanCountAux m n (c = '\n') rest

/-- Count of non-overlapping matches over the whole text. -/
def scanCount (m : Bool → List Char → Option Nat) (cs : List Char) : Nat :=
  scanCountAux m cs.length true cs

/-- One heading-pattern match attempt at a line start: `#+`, then `\s*`,
then the first matching alternative. -/
def headingMatchAt (alts : List (List HPat)) (cs : List Char) : Option Nat :=
  let hashes := cs.takeWhile (fun c => c = '#')
  if hashes.isEmpty then Option.none
  else
    let afterHash := cs.drop hashes.length
    let afterWs := afterHash.dropWhile isJsSpace
    (match matchAlts alts afterWs with
     | some rem => some (cs.length - rem.length)
     | Option.none => Option.none)

/-- Count of matches of one heading pattern (`gim` flags: anchored at line
starts, case-insensitive, non-overlapping). -/
def countHeadingMatches (alts : List (List HPat)) (cs : List Char) : Nat :=
  scanCount (fun atStart s => if atStart then headingMatchAt alts s else Option.none) cs

/-- One list-item match attempt at a line start (`^[\s]*[-*\d.]+\s` with
`gm`): leading whitespace, a non-empty run of `-`/`*`/digit/`.`, then one
whitespace character. -/
def listItemMatchAt (cs : List Char) : Option Nat :=
  let afterWs := cs.dropWhile isJsSpace
  let run := afterWs.takeWhile (fun c => c = '-' || c = '*' || c.isDigit || c = '.')
  if run.isEmpty then Option.none
  else
    (match afterWs.drop run.length with
     | c :: _ =>
       if isJsSpace c then some ((cs.length - afterWs.length) + run.length + 1)
       else Option.none
     | [] => Option.none)

/-- Count of list-item lines (`content.match(/^[\s]*[-*\d.]+\s/gm)`). -/
def countListItems (cs : List Char) : Nat :=
  scanCount (fun atStart s => if atStart then listItemMatchAt s else Option.none) cs

/-- Count of code-fence markers (`content.match(/```/g)`). -/
def countFences (cs : List Char) : Nat :=
  scanCount (fun _ s => if listHasPre ("```".data) s then some 3 else Option.none) cs

/-- One admonition-box match attempt
(`/>\s*\*\*(warning|note|caution|important)/gi`, unanchored). -/
def warningMatchAt (cs : List Char) : Option Nat :=
  match cs with
  | '>' :: rest =>
    let afterWs := rest.dropWhile isJsSpace
    (match dropLitCI ("**".data) afterWs with
     | some afterStars =>
       (match matchAlts [[.lit "warning"], [.lit "note"], [.lit "caution"],
            [.lit "important"]] afterStars with
        | some rem => some (cs.length - rem.length)
        | Option.none => Option.none)
     | Option.none => Option.none)
  | _ => Option.none

/-- Count of admonition boxes. -/
def countWarnings (cs : List Char) : Nat :=
  scanCount (fun _ s => warningMatchAt s) cs

/-- Is a line a markdown table row (`^\|.*\|$` under the `m` flag): at
least two characters, starting and ending with `|`? -/
def isTableLine (ln : String) : Bool :=
  ln.data.length ≥ 2 && ln.data.headD ' ' = '|' && ln.data.getLastD ' ' = '|'

/-- The per-tier score record (`scores` of `classifyTier`; the source keys
appear in `Object.values` in this declaration order). -/
structure TierScores where
  guide : Nat
  standard : Nat
  «example» : Nat
  reference : Nat
  admin : Nat
  deriving DecidableEq, Repr

/-- Score lookup by tier. -/
def TierScores.get (s : TierScores) : Tier → Nat
  | .guide => s.guide
  | .standard => s.standard
  | .«example» => s.«example»
  | .reference => s.reference
  | .admin => s.admin

/-- The per-tier accumulation of `classifyTier`: 2 per whole-word indicator
match, 5 per heading-pattern match, plus 10 when the UTF-8 byte size falls
in the tier's declared KB range (the source compares `bytes/1024` with the
integral bounds over JS numbers; over the integers this is
`min*1024 ≤ bytes ≤ max*1024`). -/
def baseTierScore (content lowerContent : String) (sizeBytes : Nat) (t : Tier) : Nat :=
  (((tierIndicators t).map (fun kw => countWholeWord lowerContent kw * 2)).sum) +
  (((tierHeadingPatterns t).map (fun pat => countHeadingMatches pat content.data * 5)).sum) +
  (if (tierSizeRange t).1 * 1024 ≤ sizeBytes ∧ sizeBytes ≤ (tierSizeRange t).2 * 1024
   then 10 else 0)

/-- The full score record of `classifyTier`, base accumulation plus the
four global heuristics.  The ratio comparisons of the source are integral
over exact arithmetic: `(fences/2)/(lines/50) > 0.5 ↔ 50*fences > lines`
and `listItems/lines > 0.3 ↔ 10*listItems > 3*lines` (`lines ≥ 1`
always). -/
def tierScoresOf (content : String) : TierScores :=
  let lowerContent := lowerStr content
  let sizeBytes := content.utf8ByteSize
  let base : TierScores :=
    { guide := baseTierScore content lowerContent sizeBytes .guide
      standard := baseTierScore content lowerContent sizeBytes .standard
      «example» := baseTierScore content lowerContent sizeBytes .«example»
      reference := baseTierScore content lowerContent sizeBytes .reference
      admin := baseTierScore content lowerContent sizeBytes .admin }
  let lines := (jsSplit content "\n").length
  let fences := countFences content.data
  let s1 := if 50 * fences > lines then { base with «example» := base.«example» + 15 } else base
  let listItems := countListItems content.data
  let s2 := if 10 * listItems > 3 * lines then
      { s1 with guide := s1.guide + 10, standard := s1.standard + 8 } else s1
  let tables := ((jsSplit content "\n").filter isTableLine).length
  let s3 := if tables > 5 then { s2 with reference := s2.reference + 15 } else s2
  let warnings := countWarnings content.data
  if warnings > 2 then { s3 with admin := s3.admin + 10 } else s3

/-- The winner loop of `classifyTier`: iterate `TIERS` in order, starting
from `(0, guide)`, replacing the winner only on a strictly larger score. -/
def pickWinner (s : TierScores) : Tier :=
  (TIERS.foldl (fun acc t => if s.get t > acc.1 then (s.get t, t) else acc)
    ((0 : Nat), Tier.guide)).2

/-- `Object.values(scores)` in key order, as rationals. -/
def tierValuesList (s : TierScores) : List ℚ :=
  [(s.guide : ℚ), (s.standard : ℚ), (s.«example» : ℚ), (s.reference : ℚ), (s.admin : ℚ)]

/-- Stable descending insertion for the score values (the comparator
`(a, b) => b - a`). -/
def insertQDesc (x : ℚ) : List ℚ → List ℚ
  | [] => [x]
  | y :: ys => if x ≥ y then x :: y :: ys else y :: insertQDesc x ys

/-- Stable descending sort of the score values. -/
def sortQDesc (l : List ℚ) : List ℚ := l.foldr insertQDesc []

/-- The sorted score values of `classifyTier`. -/
def sortedTierValues (s : TierScores) : List ℚ := sortQDesc (tierValuesList s)

/-- The confidence computation of `classifyTier`. -/
def confidenceOf (s : TierScores) : ℚ :=
  let sortedScores := sortedTierValues s
  let topScore := sortedScores.getD 0 0
  let secondScore := sortedScores.getD 1 0
  let scoreDiff := topScore - secondScore
  if topScore > 0 then
    min (1/2 + (scoreDiff / topScore) * (3/10) + (topScore / 100) * (1/5)) (19/20)
  else 1/2

/-- Embedding of `TierClassificationResult`; the `reasoning` trace strings
of the source carry no data used elsewhere and are omitted. -/
structure TierClassificationResult where
  tier : Tier
  confidence : ℚ
  scores : TierScores
  deriving DecidableEq, Repr

/-- Embedding of `classifyTier` (classifier.ts). -/
def classifyTier (content : String) : TierClassificationResult :=
  let scores := tierScoresOf content
  { tier := pickWinner scores
    confidence := confidenceOf scores
    scores := scores }

/-- Embedding of `CircularDependency` (dependencies.ts). -/
structure CircularDependency where
  files : List String
  deriving DecidableEq, Repr

/-- JavaScript `Set.has` / membership on string lists. -/
def strListHas (l : List String) (x : String) : Bool := l.any (fun y => y = x)

/-- JavaScript `Array.indexOf` on string lists (only consulted under a
membership guard, as in the source). -/
def strIndexOf (x : String) : List String → Nat
  | [] => 0
  | y :: ys => if y = x then 0 else strIndexOf x ys + 1

/-- `graph.get(node) ?? []` for the import adjacency map, modelled as an
association list. -/
def graphGet (g : List (String × List String)) (k : String) : List String :=
  ((g.find? (fun e => e.1 = k)).map (fun e => e.2)).getD []

/-- The mutable state of the cycle-detection DFS: the collected cycles, the
`visited` set and the shared `recursionStack` set (both in insertion
order). -/
structure DfsState where
  cycles : List (List String)
  visited : List String
  stack : List String
  deriving DecidableEq, Repr

/-- Fuel-indexed embedding of the `dfs` closure of
`detectCircularDependencies`: re-seeing a node on the recursion stack
records `path.slice(path.indexOf(node))` as a cycle; otherwise unvisited
nodes are expanded with a fresh copy of the path (the source's
`[...path]`), and the node leaves the stack afterwards.  Each nested call
pushes a new node onto the stack, so nesting never exceeds the number of
distinct nodes and the fuel chosen in `dfsFuel` is sufficient. -/
def dfs (g : List (String × List String)) :
    Nat → String → List String → DfsState → DfsState
  | 0, _, _, st => st
  | n + 1, node, path, st =>
    if strListHas st.stack node then
      (if strListHas path node then
        { st with cycles := st.cycles ++ [path.drop (strIndexOf node path)] }
      else st)
    else if strListHas st.visited node then st
    else
      let st1 := { st with visited := st.visited ++ [node], stack := st.stack ++ [node] }
      let path1 := path ++ [node]
      let st2 := (graphGet g node).foldl (fun acc next => dfs g n next path1 acc) st1
      { st2 with stack := st2.stack.erase node }

/-- An upper bound on the DFS nesting depth: every node name of the graph
(keys and neighbours) plus one. -/
def dfsFuel (g : List (String × List String)) : Nat :=
  g.length + (g.map (fun e => e.2.length)).sum + 1

/-- The cycle-collection loop of `detectCircularDependencies`: start a DFS
from every not-yet-visited key. -/
def rawCycles (g : List (String × List String)) : List (List String) :=
  (g.foldl (fun st e =>
    if strListHas st.visited e.1 then st else dfs g (dfsFuel g) e.1 [] st)
    { cycles := [], visited := [], stack := [] }).cycles

/-- Lexicographic comparison of strings (the UTF-16 code-unit order of the
default JavaScript `Array.sort` comparator, restricted to the ASCII paths
handled here). -/
def charListLe : List Char → List Char → Bool
  | [], _ => true
  | _ :: _, [] => false
  | a :: as, b :: bs => if a < b then true else if b < a then false else charListLe as bs

/-- String order for the canonical cycle key. -/
def strLe (a b : String) : Bool := charListLe a.data b.data

/-- Stable ascending insertion for the canonical cycle key. -/
def insertStrAsc (x : String) : List String → List String
  | [] => [x]
  | y :: ys => if strLe x y then x :: y :: ys else y :: insertStrAsc x ys

/-- Stable ascending sort (`[...cycle.files].sort()`). -/
def sortStrsAsc (l : List String) : List String := l.foldr insertStrAsc []

/-- Cycle deduplication by the canonical key: sorted member paths joined
with `->`; first occurrence wins, in discovery order. -/
def dedupCycles (cycles : List (List String)) : List (List String) :=
  (cycles.foldl (fun acc c =>
    let key := String.intercalate "->" (sortStrsAsc c)
    if strListHas acc.2 key then acc
    else (acc.1 ++ [c], acc.2 ++ [key]))
    (([] : List (List String)), ([] : List String))).1

/-- Embedding of `detectCircularDependencies` (dependencies.ts): DFS cycle
collection, canonical-key deduplication, and truncation to the first 10
unique cycles. -/
def detectCircularDependencies (g : List (String × List String)) :
    List CircularDependency :=
  ((dedupCycles (rawCycles g)).take 10).map CircularDependency.mk

-- ===== theorems =====

theorem strToDomain_empty : strToDomain "" = Option.none := by decide

theorem findDomainSeg_of_first (parts : List String) (d : Domain) (i : Nat)
    (hbefore : ∀ j, j < i → strToDomain (parts.getD j "") = Option.none)
    (hat : strToDomain (parts.getD i "") = some d) :
    findDomainSeg parts = some (d, i) := by
  induction parts generalizing i with
  | nil =>
    have hgd : ([] : List String).getD i "" = "" := by cases i <;> rfl
    rw [hgd, strToDomain_empty] at hat
    exact Option.noConfusion hat
  | cons p ps ih =>
    cases i with
    | zero =>
      rw [show (p :: ps).getD 0 "" = p from rfl] at hat
      simp [findDomainSeg, hat]
    | succ k =>
      have h0 : strToDomain p = Option.none := by
        have h := hbefore 0 (Nat.succ_pos k)
        rwa [show (p :: ps).getD 0 "" = p from rfl] at h
      have hrec : findDomainSeg ps = some (d, k) := by
        apply ih
        · intro j hj
          have h := hbefore (j + 1) (Nat.succ_lt_succ hj)
          rwa [show (p :: ps).getD (j + 1) "" = ps.getD j "" from rfl] at h
        · rwa [show (p :: ps).getD (k + 1) "" = ps.getD k "" from rfl] at hat
      simp [findDomainSeg, h0, hrec]

theorem detectDomain_of_high_path (filePath docsRoot : String) (content : Option String)
    (h : (detectDomainFromPath filePath docsRoot).domain.isSome = true)
    (h2 : (detectDomainFromPath filePath docsRoot).confidence ≥ 9/10) :
    detectDomain filePath content docsRoot = detectDomainFromPath filePath docsRoot := by
  simp only [detectDomain]
  rw [if_pos ⟨h, h2⟩]

/-- Claim C2: a registered domain id as the first segment of the path
relative to the docs root makes `classifyDomain` (`detectDomain`) return
that domain with confidence exactly 1, regardless of supplied content; and
when the first registered-domain segment sits at depth `i > 0`, the path
phase (`detectDomainFromPath`) yields that domain with confidence
`9/10 - i/10`. -/
theorem detectDomain_path_phase (filePath docsRoot : String) (content : Option String)
    (d : Domain) (i : Nat) :
    ((strToDomain ((pathSegs (relativeStr docsRoot filePath)).getD 0 "") = some d →
      detectDomain filePath content docsRoot =
        { domain := some d, confidence := 1, method := DetectMethod.path,
          alternativeDomains := [] }) ∧
     (0 < i →
      (∀ j, j < i →
        strToDomain ((pathSegs (relativeStr docsRoot filePath)).getD j "") = Option.none) →
      strToDomain ((pathSegs (relativeStr docsRoot filePath)).getD i "") = some d →
      detectDomainFromPath filePath docsRoot =
        { domain := some d, confidence := 9/10 - (i : ℚ) * (1/10),
          method := DetectMethod.path, alternativeDomains := [] })) := by
  constructor
  · intro h0
    have hfind : findDomainSeg (pathSegs (relativeStr docsRoot filePath)) = some (d, 0) :=
      findDomainSeg_of_first _ d 0 (fun j hj => absurd hj (Nat.not_lt_zero j)) h0
    have hpath : detectDomainFromPath filePath docsRoot =
        { domain := some d, confidence := 1, method := DetectMethod.path,
          alternativeDomains := [] } := by
      simp [detectDomainFromPath, hfind]
    rw [detectDomain_of_high_path filePath docsRoot content (by rw [hpath]; rfl)
      (by rw [hpath]; norm_num), hpath]
  · intro hi hbefore hat
    have hfind : findDomainSeg (pathSegs (relativeStr docsRoot filePath)) = some (d, i) :=
      findDomainSeg_of_first _ d i hbefore hat
    have hne : i ≠ 0 := Nat.pos_iff_ne_zero.mp hi
    simp [detectDomainFromPath, hfind, hne]

/-- Witness for C2 at concrete inputs: `docs/security/auth.md` relative to
root `docs` classifies as `security` with confidence 1, and
`docs/x/security/auth.md` has its domain segment at depth 1, so the path
phase yields confidence `8/10`. -/
theorem detectDomain_path_phase_witness :
    detectDomain "docs/security/auth.md" (some "anything") "docs" =
      { domain := some Domain.security, confidence := 1, method := DetectMethod.path,
        alternativeDomains := [] } ∧
    detectDomainFromPath "docs/x/security/auth.md" "docs" =
      { domain := some Domain.security, confidence := 9/10 - (1 : ℚ) * (1/10),
        method := DetectMethod.path, alternativeDomains := [] } := by
  refine ⟨(detectDomain_path_phase "docs/security/auth.md" "docs" (some "anything")
    Domain.security 1).1 (by decide), ?_⟩
  exact (detectDomain_path_phase "docs/x/security/auth.md" "docs" Option.none
    Domain.security 1).2 (by decide)
    (by intro j hj; interval_cases j; decide) (by decide)

/-- Claim C3 (evaluation of the code at the failing input): a registered
domain folder nested at depth 10 relative to the docs root yields
`classifyDomain` confidence `-1/10`, strictly below the documented
`[0, 1]` range. -/
theorem detectDomain_confidence_below_zero :
    (detectDomain "docs/d1/d2/d3/d4/d5/d6/d7/d8/d9/d10/security/x.md"
        Option.none "docs").confidence = -(1/10) ∧
    (detectDomain "docs/d1/d2/d3/d4/d5/d6/d7/d8/d9/d10/security/x.md"
        Option.none "docs").confidence < 0 := by
  have hfind : findDomainSeg (pathSegs (relativeStr "docs"
      "docs/d1/d2/d3/d4/d5/d6/d7/d8/d9/d10/security/x.md")) =
      some (Domain.security, 10) := by decide
  have hpath : detectDomainFromPath "docs/d1/d2/d3/d4/d5/d6/d7/d8/d9/d10/security/x.md"
      "docs" =
      { domain := some Domain.security, confidence := 9/10 - ((10 : Nat) : ℚ) * (1/10),
        method := DetectMethod.path, alternativeDomains := [] } := by
    simp [detectDomainFromPath, hfind]
  have hdet : detectDomain "docs/d1/d2/d3/d4/d5/d6/d7/d8/d9/d10/security/x.md"
      Option.none "docs" =
      detectDomainFromPath "docs/d1/d2/d3/d4/d5/d6/d7/d8/d9/d10/security/x.md" "docs" := by
    simp only [detectDomain]
    rw [if_neg]
    intro hcontra
    rw [hpath] at hcontra
    have h2 := hcontra.2
    norm_num at h2
  rw [hdet, hpath]
  norm_num

theorem detectDomainFromContent_none_conf (c : String)
    (h : (detectDomainFromContent c).domain = Option.none) :
    (detectDomainFromContent c).confidence = 0 := by
  cases hcs : contentScoresSorted c with
  | nil => simp only [detectDomainFromContent, hcs]; rfl
  | cons top rest =>
    simp only [detectDomainFromContent, hcs] at h
    exact Option.noConfusion h

/-- Claim C4 (amended): when the path phase has confidence below `9/10` and
content is supplied, the content detection wins exactly when its confidence
is strictly higher, in which case the path domain is prepended to its
alternates; otherwise the path detection is returned unchanged (without the
content domain among its alternates); with no path domain the content result
is returned as is, and if neither phase matched the result has domain `none`
and confidence 0. -/
theorem detectDomain_resolution (filePath docsRoot c : String)
    (hlow : (detectDomainFromPath filePath docsRoot).confidence < 9/10) :
    ((∀ pd, (detectDomainFromPath filePath docsRoot).domain = some pd →
      (detectDomainFromContent c).confidence >
          (detectDomainFromPath filePath docsRoot).confidence →
      detectDomain filePath (some c) docsRoot =
        { detectDomainFromContent c with
            alternativeDomains :=
              { domain := pd,
                confidence := (detectDomainFromPath filePath docsRoot).confidence } ::
                (detectDomainFromContent c).alternativeDomains }) ∧
     (∀ pd, (detectDomainFromPath filePath docsRoot).domain = some pd →
      ¬((detectDomainFromContent c).confidence >
          (detectDomainFromPath filePath docsRoot).confidence) →
      detectDomain filePath (some c) docsRoot = detectDomainFromPath filePath docsRoot) ∧
     ((detectDomainFromPath filePath docsRoot).domain = Option.none →
      detectDomain filePath (some c) docsRoot = detectDomainFromContent c) ∧
     ((detectDomainFromPath filePath docsRoot).domain = Option.none →
      (detectDomainFromContent c).domain = Option.none →
      (detectDomain filePath (some c) docsRoot).domain = Option.none ∧
      (detectDomain filePath (some c) docsRoot).confidence = 0)) := by
  have hnot : ¬((detectDomainFromPath filePath docsRoot).domain.isSome = true ∧
      (detectDomainFromPath filePath docsRoot).confidence ≥ 9/10) := by
    rintro ⟨-, h2⟩
    exact absurd h2 (not_le.mpr hlow)
  refine ⟨?_, ?_, ?_, ?_⟩
  · intro pd hpd hgt
    simp only [detectDomain]
    rw [if_neg hnot, hpd]
    simp only [hpd]
    rw [if_pos hgt]
  · intro pd hpd hle
    simp only [detectDomain]
    rw [if_neg hnot, hpd]
    simp only [hpd]
    rw [if_neg hle]
  · intro hnone
    simp only [detectDomain]
    rw [if_neg hnot, hnone]
  · intro hnone hcnone
    simp only [detectDomain]
    rw [if_neg hnot, hnone]
    exact ⟨hcnone, detectDomainFromContent_none_conf c hcnone⟩

theorem contentScoresSorted_docker :
    contentScoresSorted "docker" = [(Domain.devops, 1)] := by decide

theorem detectDomainFromContent_docker :
    detectDomainFromContent "docker" =
      { domain := some Domain.devops, confidence := 123/200,
        method := DetectMethod.keywords, alternativeDomains := [] } := by
  simp only [detectDomainFromContent, contentScoresSorted_docker]
  norm_num [contentResultOf, min_def]

theorem detectDomainFromPath_nested_security :
    detectDomainFromPath "docs/a/security/x.md" "docs" =
      { domain := some Domain.security, confidence := 8/10,
        method := DetectMethod.path, alternativeDomains := [] } := by
  have hfind : findDomainSeg (pathSegs (relativeStr "docs" "docs/a/security/x.md")) =
      some (Domain.security, 1) := by decide
  simp only [detectDomainFromPath, hfind]
  norm_num

/-- Claim C4 (counterexample to the claim as stated): for
`docs/a/security/x.md` under root `docs` with content `"docker"`, the path
phase wins (confidence `8/10` against the content phase's `123/200`), and
the losing content domain `devops` is NOT added to the winner's alternates
list, which stays empty. -/
theorem detectDomain_losing_alternate_missing :
    (detectDomainFromContent "docker").domain = some Domain.devops ∧
    detectDomain "docs/a/security/x.md" (some "docker") "docs" =
      detectDomainFromPath "docs/a/security/x.md" "docs" ∧
    (detectDomain "docs/a/security/x.md" (some "docker") "docs").alternativeDomains = [] := by
  have hmain : detectDomain "docs/a/security/x.md" (some "docker") "docs" =
      detectDomainFromPath "docs/a/security/x.md" "docs" := by
    simp only [detectDomain, detectDomainFromPath_nested_security,
      detectDomainFromContent_docker]
    rw [if_neg (by rintro ⟨-, h2⟩; norm_num at h2)]
    rw [if_neg (by norm_num)]
  refine ⟨by rw [detectDomainFromContent_docker], hmain, ?_⟩
  rw [hmain, detectDomainFromPath_nested_security]

/-- Witness for C4 at concrete inputs: the path-wins branch at
`docs/a/security/x.md` with content `"docker"`, and the no-path-domain
branch at `docs/other.txt` with the same content. -/
theorem detectDomain_resolution_witness :
    detectDomain "docs/a/security/x.md" (some "docker") "docs" =
      detectDomainFromPath "docs/a/security/x.md" "docs" ∧
    detectDomain "docs/other.txt" (some "docker") "docs" =
      detectDomainFromContent "docker" := by
  constructor
  · exact (detectDomain_resolution "docs/a/security/x.md" "docs" "docker"
      (by rw [detectDomainFromPath_nested_security]; norm_num)).2.1
      Domain.security (by rw [detectDomainFromPath_nested_security])
      (by rw [detectDomainFromPath_nested_security, detectDomainFromContent_docker]
          norm_num)
  · exact (detectDomain_resolution "docs/other.txt" "docs" "docker"
      (by have h : detectDomainFromPath "docs/other.txt" "docs" =
            { domain := Option.none, confidence := 0, method := DetectMethod.path,
              alternativeDomains := [] } := by decide
          rw [h]; norm_num)).2.2.1
      (by have h : detectDomainFromPath "docs/other.txt" "docs" =
            { domain := Option.none, confidence := 0, method := DetectMethod.path,
              alternativeDomains := [] } := by decide
          rw [h])

theorem nodesHas_eq_any_key (m : List LinkNode) (p : String) :
    nodesHas m p = (keyList m).any (fun s => s = p) := by
  induction m with
  | nil => rfl
  | cons x xs ih =>
    unfold nodesHas keyList at ih ⊢
    simp only [List.any_cons, List.map_cons]
    rw [ih]

theorem keyList_nodesUpdate (m : List LinkNode) (p : String) (f : LinkNode → LinkNode)
    (hf : ∀ x, (f x).path = x.path) :
    keyList (nodesUpdate m p f) = keyList m := by
  unfold keyList nodesUpdate
  rw [List.map_map]
  induction m with
  | nil => rfl
  | cons x xs ih =>
    simp only [List.map_cons, ih]
    congr 1
    by_cases h : x.path = p
    · simp [Function.comp, h, hf]
    · simp [Function.comp, h]

theorem keyList_nodesUpdate_out (m : List LinkNode) (p : String) :
    keyList (nodesUpdate m p (fun n => { n with outDegree := n.outDegree + 1 })) =
      keyList m :=
  keyList_nodesUpdate m p _ (fun _ => rfl)

theorem keyList_nodesUpdate_in (m : List LinkNode) (p : String) :
    keyList (nodesUpdate m p (fun n => { n with inDegree := n.inDegree + 1 })) =
      keyList m :=
  keyList_nodesUpdate m p _ (fun _ => rfl)

theorem keyList_linkStep (docsPath relPath fileDir : String)
    (acc : List LinkNode × List LinkEdge) (l : MarkdownLink) :
    keyList (linkStep docsPath relPath fileDir acc l).1 = keyList acc.1 := by
  unfold linkStep
  by_cases hi : l.isInternal = true
  · rw [if_pos hi]
    cases hres : resolveGraphTarget docsPath fileDir l.url with
    | none => rfl
    | some t =>
      dsimp only
      by_cases hh : nodesHas acc.1 t = true
      · rw [if_pos hh]
        dsimp only
        rw [keyList_nodesUpdate_in, keyList_nodesUpdate_out]
      · rw [if_neg hh]
  · rw [if_neg hi]

theorem mem_linkStep_edges (docsPath relPath fileDir : String)
    (acc : List LinkNode × List LinkEdge) (l : MarkdownLink) (e : LinkEdge)
    (he : e ∈ acc.2) : e ∈ (linkStep docsPath relPath fileDir acc l).2 := by
  unfold linkStep
  by_cases hi : l.isInternal = true
  · rw [if_pos hi]
    cases hres : resolveGraphTarget docsPath fileDir l.url with
    | none => exact he
    | some t =>
      dsimp only
      by_cases hh : nodesHas acc.1 t = true
      · rw [if_pos hh]
        dsimp only
        exact List.mem_append_left _ he
      · rw [if_neg hh]; exact he
  · rw [if_neg hi]; exact he

theorem mem_foldl_linkStep_edges (docsPath relPath fileDir : String)
    (L : List MarkdownLink) (acc : List LinkNode × List LinkEdge) (e : LinkEdge)
    (he : e ∈ acc.2) :
    e ∈ (L.foldl (linkStep docsPath relPath fileDir) acc).2 := by
  induction L generalizing acc with
  | nil => exact he
  | cons l L ih =>
    rw [List.foldl_cons]
    exact ih _ (mem_linkStep_edges docsPath relPath fileDir acc l e he)

theorem keyList_foldl_linkStep (docsPath relPath fileDir : String)
    (L : List MarkdownLink) (acc : List LinkNode × List LinkEdge) :
    keyList (L.foldl (linkStep docsPath relPath fileDir) acc).1 = keyList acc.1 := by
  induction L generalizing acc with
  | nil => rfl
  | cons l L ih =>
    rw [List.foldl_cons, ih, keyList_linkStep]

theorem edge_mem_foldl_linkStep (docsPath relPath fileDir : String)
    (L : List MarkdownLink) (acc : List LinkNode × List LinkEdge)
    (l : MarkdownLink) (hl : l ∈ L) (hint : l.isInternal = true) (t : String)
    (hres : resolveGraphTarget docsPath fileDir l.url = some t)
    (hhas : nodesHas acc.1 t = true) :
    ({ source := relPath, target := t, linkText := l.text,
       lineNumber := l.lineNumber } : LinkEdge)
      ∈ (L.foldl (linkStep docsPath relPath fileDir) acc).2 := by
  induction L generalizing acc with
  | nil => cases hl
  | cons l0 L ih =>
    rw [List.foldl_cons]
    rcases List.mem_cons.mp hl with h | h
    · subst h
      apply mem_foldl_linkStep_edges
      unfold linkStep
      rw [if_pos hint]
      simp only [hres]
      rw [if_pos hhas]
      dsimp only
      exact List.mem_append_right _ (List.mem_singleton.mpr rfl)
    · refine ih _ h ?_
      rw [nodesHas_eq_any_key, keyList_linkStep, ← nodesHas_eq_any_key]
      exact hhas

theorem keyList_edgeStep (docsPath : String) (acc : List LinkNode × List LinkEdge)
    (f : String × String) :
    keyList (edgeStep docsPath acc f).1 = keyList acc.1 :=
  keyList_foldl_linkStep docsPath _ _ _ acc

theorem mem_foldl_edgeStep_edges (docsPath : String) (fs : List (String × String))
    (acc : List LinkNode × List LinkEdge) (e : LinkEdge) (he : e ∈ acc.2) :
    e ∈ (fs.foldl (edgeStep docsPath) acc).2 := by
  induction fs generalizing acc with
  | nil => exact he
  | cons f fs ih =>
    rw [List.foldl_cons]
    exact ih _ (mem_foldl_linkStep_edges docsPath _ _ _ acc e he)

theorem edge_mem_foldl_edgeStep (docsPath : String) (fs : List (String × String))
    (acc : List LinkNode × List LinkEdge) (f : String × String) (hf : f ∈ fs)
    (l : MarkdownLink) (hl : l ∈ extractLinks f.2) (hint : l.isInternal = true)
    (t : String) (hres : resolveGraphTarget docsPath (dirnameStr f.1) l.url = some t)
    (hhas : nodesHas acc.1 t = true) :
    ({ source := relativeStr docsPath f.1, target := t, linkText := l.text,
       lineNumber := l.lineNumber } : LinkEdge)
      ∈ (fs.foldl (edgeStep docsPath) acc).2 := by
  induction fs generalizing acc with
  | nil => cases hf
  | cons f0 fs ih =>
    rw [List.foldl_cons]
    rcases List.mem_cons.mp hf with h | h
    · subst h
      apply mem_foldl_edgeStep_edges
      exact edge_mem_foldl_linkStep docsPath _ _ _ acc l hl hint t hres hhas
    · refine ih _ h ?_
      rw [nodesHas_eq_any_key, keyList_edgeStep, ← nodesHas_eq_any_key]
      exact hhas

theorem nodesHas_nodesSet_of (m : List LinkNode) (n : LinkNode) (p : String)
    (h : nodesHas m p = true ∨ n.path = p) :
    nodesHas (nodesSet m n) p = true := by
  unfold nodesSet
  by_cases hex : m.any (fun x => x.path = n.path) = true
  · rw [if_pos hex]
    rcases h with h | h
    · obtain ⟨x, hx, hxp⟩ := List.any_eq_true.mp h
      apply List.any_eq_true.mpr
      refine ⟨if x.path = n.path then n else x, List.mem_map_of_mem _ hx, ?_⟩
      by_cases hxe : x.path = n.path
      · rw [if_pos hxe, ← hxe]
        exact hxp
      · rw [if_neg hxe]
        exact hxp
    · obtain ⟨x, hx, hxe⟩ := List.any_eq_true.mp hex
      simp only [decide_eq_true_eq] at hxe
      apply List.any_eq_true.mpr
      refine ⟨if x.path = n.path then n else x, List.mem_map_of_mem _ hx, ?_⟩
      rw [if_pos hxe]
      simp [h]
  · rw [if_neg hex]
    unfold nodesHas at h ⊢
    rw [List.any_append]
    rcases h with h | h
    · simp [h]
    · simp [h]

theorem nodesHas_foldl_insertNode (docsPath : String) (files : List (String × String)) :
    ∀ (m : List LinkNode) (t : String),
      (t ∈ files.map (fun g => relativeStr docsPath g.1) ∨ nodesHas m t = true) →
      nodesHas (files.foldl (insertNode docsPath) m) t = true := by
  induction files with
  | nil =>
    intro m t h
    rcases h with h | h
    · cases h
    · exact h
  | cons f fs ih =>
    intro m t h
    rw [List.foldl_cons]
    apply ih
    rcases h with h | h
    · rw [List.map_cons, List.mem_cons] at h
      rcases h with h | h
      · right
        exact nodesHas_nodesSet_of _ _ _ (Or.inr h.symm)
      · left; exact h
    · right
      exact nodesHas_nodesSet_of _ _ _ (Or.inl h)

/-- Claim C1: for every corpus and docs root — hence for every processing
order of the corpus files — every internal link whose resolved target path
is the relative path of a corpus file produces the corresponding `LinkEdge`
in `buildLinkGraph`; the two-pass construction makes this hold also for
forward references. -/
theorem buildLinkGraph_forward_link_edge (docsPath : String)
    (files : List (String × String)) (f : String × String) (l : MarkdownLink)
    (t : String) (hf : f ∈ files) (hl : l ∈ extractLinks f.2)
    (hint : l.isInternal = true)
    (hres : resolveGraphTarget docsPath (dirnameStr f.1) l.url = some t)
    (hcorpus : t ∈ files.map (fun g => relativeStr docsPath g.1)) :
    ({ source := relativeStr docsPath f.1, target := t, linkText := l.text,
       lineNumber := l.lineNumber } : LinkEdge)
      ∈ (buildLinkGraph docsPath files).edges := by
  have hhas : nodesHas (initNodes docsPath files) t = true :=
    nodesHas_foldl_insertNode docsPath files [] t (Or.inl hcorpus)
  exact edge_mem_foldl_edgeStep docsPath files (initNodes docsPath files, []) f hf
    l hl hint t hres hhas

/-- Witness for C1 at a concrete two-file corpus with a forward reference:
`a.md` links `b.md`, and the edge is present. -/
theorem buildLinkGraph_forward_link_edge_witness :
    LinkEdge.mk (relativeStr "docs" "docs/a.md") "b.md" "x" 1
      ∈ (buildLinkGraph "docs" [("docs/a.md", "[x](b.md)"), ("docs/b.md", "hello")]).edges := by
  exact buildLinkGraph_forward_link_edge "docs"
    [("docs/a.md", "[x](b.md)"), ("docs/b.md", "hello")] ("docs/a.md", "[x](b.md)")
    (MarkdownLink.mk "x" "b.md" Option.none true 1 0 9) "b.md"
    (by decide) (by decide) rfl (by decide) (by decide)

theorem keyList_map_replace (m : List LinkNode) (n : LinkNode) :
    keyList (m.map (fun x => if x.path = n.path then n else x)) = keyList m := by
  unfold keyList
  rw [List.map_map]
  induction m with
  | nil => rfl
  | cons x xs ih =>
    simp only [List.map_cons, ih]
    congr 1
    by_cases h : x.path = n.path
    · simp [Function.comp, h]
    · simp [Function.comp, h]

theorem keyList_nodesSet_nodup (m : List LinkNode) (n : LinkNode)
    (h : (keyList m).Nodup) : (keyList (nodesSet m n)).Nodup := by
  unfold nodesSet
  by_cases hex : m.any (fun x => x.path = n.path) = true
  · rw [if_pos hex, keyList_map_replace]
    exact h
  · rw [if_neg hex]
    unfold keyList at h ⊢
    rw [List.map_append, List.nodup_append]
    refine ⟨h, List.nodup_singleton _, ?_⟩
    intro s hs hs2
    simp only [List.map_cons, List.map_nil, List.mem_singleton] at hs2
    subst hs2
    obtain ⟨x, hx, hxe⟩ := List.mem_map.mp hs
    exact hex (List.any_eq_true.mpr ⟨x, hx, by simp [hxe]⟩)

theorem keyList_foldl_insertNode_nodup (docsPath : String)
    (files : List (String × String)) :
    ∀ m : List LinkNode, (keyList m).Nodup →
      (keyList (files.foldl (insertNode docsPath) m)).Nodup := by
  induction files with
  | nil => intro m h; exact h
  | cons f fs ih =>
    intro m h
    rw [List.foldl_cons]
    exact ih _ (keyList_nodesSet_nodup m _ h)

theorem keyList_initNodes_nodup (docsPath : String) (files : List (String × String)) :
    (keyList (initNodes docsPath files)).Nodup :=
  keyList_foldl_insertNode_nodup docsPath files [] List.nodup_nil

theorem keyList_foldl_edgeStep (docsPath : String) (fs : List (String × String)) :
    ∀ acc : List LinkNode × List LinkEdge,
      keyList (fs.foldl (edgeStep docsPath) acc).1 = keyList acc.1 := by
  induction fs with
  | nil => intro acc; rfl
  | cons f fs ih =>
    intro acc
    rw [List.foldl_cons, ih, keyList_edgeStep]

theorem keyList_graph_nodes (docsPath : String) (files : List (String × String)) :
    keyList (buildLinkGraph docsPath files).nodes = keyList (initNodes docsPath files) :=
  keyList_foldl_edgeStep docsPath files (initNodes docsPath files, [])

theorem node_eq_of_path_eq (m : List LinkNode) (h : (keyList m).Nodup) :
    ∀ a b : LinkNode, a ∈ m → b ∈ m → a.path = b.path → a = b := by
  induction m with
  | nil => intro a b ha; cases ha
  | cons x xs ih =>
    intro a b ha hb hp
    unfold keyList at h
    simp only [List.map_cons, List.nodup_cons] at h
    rcases List.mem_cons.mp ha with rfl | ha2
    · rcases List.mem_cons.mp hb with rfl | hb2
      · rfl
      · exact absurd (by rw [hp]; exact List.mem_map_of_mem _ hb2) h.1
    · rcases List.mem_cons.mp hb with rfl | hb2
      · exact absurd (by rw [← hp]; exact List.mem_map_of_mem _ ha2) h.1
      · exact ih h.2 a b ha2 hb2 hp

/-- Claim C8: a node of the built graph is reported by `findOrphanFiles` if
and only if its `inDegree` is 0 and its filename is none of the structural
exclusions `INDEX.md`, `REGISTRY.md`, `README.md`; in particular every
zero-inbound node with a non-excluded name appears in the orphan list. -/
theorem findOrphanFiles_iff (docsPath : String) (files : List (String × String))
    (n : LinkNode) (hn : n ∈ (buildLinkGraph docsPath files).nodes) :
    (n.path ∈ findOrphanFiles docsPath files ↔
      (n.inDegree = 0 ∧
        (["INDEX.md", "REGISTRY.md", "README.md"].contains (lastSeg n.path)) = false)) := by
  have hnodup : (keyList (buildLinkGraph docsPath files).nodes).Nodup := by
    rw [keyList_graph_nodes]
    exact keyList_initNodes_nodup docsPath files
  unfold findOrphanFiles
  constructor
  · intro h
    obtain ⟨n2, hn2, hp⟩ := List.mem_map.mp h
    have h2 := List.mem_filter.mp hn2
    have h3 := List.mem_filter.mp h2.1
    have heq : n2 = n := node_eq_of_path_eq _ hnodup n2 n h3.1 hn hp
    subst heq
    refine ⟨of_decide_eq_true h3.2, ?_⟩
    have hb := h2.2
    cases hcb : (["INDEX.md", "REGISTRY.md", "README.md"].contains (lastSeg n2.path)) with
    | false => rfl
    | true => rw [hcb] at hb; simp at hb
  · rintro ⟨h1, h2⟩
    apply List.mem_map.mpr
    refine ⟨n, List.mem_filter.mpr ⟨List.mem_filter.mpr ⟨hn, ?_⟩, ?_⟩, rfl⟩
    · exact decide_eq_true h1
    · rw [h2]; rfl

/-- Witness for C8 at a concrete corpus: `docs/orphan.md` has no inbound
links and a non-excluded name, so it is reported as an orphan. -/
theorem findOrphanFiles_iff_witness :
    "orphan.md" ∈ findOrphanFiles "docs" [("docs/orphan.md", "")] :=
  (findOrphanFiles_iff "docs" [("docs/orphan.md", "")]
    (LinkNode.mk "orphan.md" "orphan.md" Option.none 0 0) (by decide)).mpr
    ⟨rfl, by decide⟩

theorem mem_keyList_of_nodesHas (m : List LinkNode) (p : String)
    (h : nodesHas m p = true) : p ∈ keyList m := by
  rw [nodesHas_eq_any_key] at h
  obtain ⟨s, hs, he⟩ := List.any_eq_true.mp h
  simp only [decide_eq_true_eq] at he
  exact he ▸ hs

theorem linkStep_edge_target (docsPath relPath fileDir : String)
    (acc : List LinkNode × List LinkEdge) (l : MarkdownLink) :
    ∀ e ∈ (linkStep docsPath relPath fileDir acc l).2,
      e ∈ acc.2 ∨ nodesHas acc.1 e.target = true := by
  intro e he
  unfold linkStep at he
  by_cases hi : l.isInternal = true
  · rw [if_pos hi] at he
    cases hres : resolveGraphTarget docsPath fileDir l.url with
    | none => rw [hres] at he; exact Or.inl he
    | some t =>
      rw [hres] at he
      dsimp only at he
      by_cases hh : nodesHas acc.1 t = true
      · rw [if_pos hh] at he
        dsimp only at he
        rcases List.mem_append.mp he with h | h
        · exact Or.inl h
        · right
          rw [List.mem_singleton] at h
          subst h
          exact hh
      · rw [if_neg hh] at he; exact Or.inl he
  · rw [if_neg hi] at he; exact Or.inl he

theorem foldl_linkStep_edge_target (docsPath relPath fileDir : String)
    (L : List MarkdownLink) :
    ∀ (acc : List LinkNode × List LinkEdge),
      ∀ e ∈ (L.foldl (linkStep docsPath relPath fileDir) acc).2,
        e ∈ acc.2 ∨ nodesHas acc.1 e.target = true := by
  induction L with
  | nil => intro acc e he; exact Or.inl he
  | cons l L ih =>
    intro acc e he
    rw [List.foldl_cons] at he
    rcases ih _ e he with h | h
    · exact linkStep_edge_target docsPath relPath fileDir acc l e h
    · right
      rwa [nodesHas_eq_any_key, keyList_linkStep, ← nodesHas_eq_any_key] at h

theorem foldl_edgeStep_edge_target (docsPath : String) (fs : List (String × String)) :
    ∀ (acc : List LinkNode × List LinkEdge),
      ∀ e ∈ (fs.foldl (edgeStep docsPath) acc).2,
        e ∈ acc.2 ∨ nodesHas acc.1 e.target = true := by
  induction fs with
  | nil => intro acc e he; exact Or.inl he
  | cons f fs ih =>
    intro acc e he
    rw [List.foldl_cons] at he
    rcases ih _ e he with h | h
    · exact foldl_linkStep_edge_target docsPath _ _ _ acc e h
    · right
      rwa [nodesHas_eq_any_key, keyList_edgeStep, ← nodesHas_eq_any_key] at h

theorem buildLinkGraph_edge_target (docsPath : String) (files : List (String × String)) :
    ∀ e ∈ (buildLinkGraph docsPath files).edges,
      e.target ∈ keyList (buildLinkGraph docsPath files).nodes := by
  intro e he
  rcases foldl_edgeStep_edge_target docsPath files (initNodes docsPath files, []) e he
    with h | h
  · cases h
  · rw [keyList_graph_nodes]
    exact mem_keyList_of_nodesHas _ _ h

theorem checkLinkStep_broken (docsPath : String) (fsPaths : List String)
    (filePath relFile fileDir : String) (st : CheckState) (l : MarkdownLink) :
    (checkLinkStep docsPath fsPaths filePath relFile fileDir st l).res.brokenLinks =
      st.res.brokenLinks ++
        (if l.isInternal && !(fsPaths.contains (resolveLink l.url fileDir docsPath)) then
          [BrokenLink.mk relFile l.url l.lineNumber l.text "Target file does not exist"]
        else []) := by
  unfold checkLinkStep
  by_cases hi : l.isInternal = true
  · rw [if_pos hi]
    by_cases he : fsPaths.contains (resolveLink l.url fileDir docsPath) = true
    · rw [if_pos he]
      have hrhs : (if l.isInternal && !(fsPaths.contains (resolveLink l.url fileDir docsPath)) then
          [BrokenLink.mk relFile l.url l.lineNumber l.text "Target file does not exist"]
        else ([] : List BrokenLink)) = [] := by
        rw [hi, he]; rfl
      rw [hrhs, List.append_nil]
      cases hsd : (detectDomainFromPath filePath docsPath).domain with
      | none => rfl
      | some sd =>
        cases htd : (detectDomainFromPath (resolveLink l.url fileDir docsPath)
            docsPath).domain with
        | none => rfl
        | some td =>
          dsimp only
          by_cases hdt : sd ≠ td
          · rw [if_pos hdt]
          · rw [if_neg hdt]
    · rw [if_neg he]
      have hcf : fsPaths.contains (resolveLink l.url fileDir docsPath) = false := by
        cases hcb : fsPaths.contains (resolveLink l.url fileDir docsPath)
        · rfl
        · exact absurd hcb he
      have hrhs : (if l.isInternal && !(fsPaths.contains (resolveLink l.url fileDir docsPath)) then
          [BrokenLink.mk relFile l.url l.lineNumber l.text "Target file does not exist"]
        else ([] : List BrokenLink)) =
          [BrokenLink.mk relFile l.url l.lineNumber l.text "Target file does not exist"] := by
        rw [hi, hcf]; rfl
      rw [hrhs]
  · rw [if_neg hi]
    have hif : l.isInternal = false := by
      cases hb : l.isInternal
      · rfl
      · exact absurd hb hi
    have hrhs : (if l.isInternal && !(fsPaths.contains (resolveLink l.url fileDir docsPath)) then
        [BrokenLink.mk relFile l.url l.lineNumber l.text "Target file does not exist"]
      else ([] : List BrokenLink)) = [] := by
      rw [hif]; rfl
    rw [hrhs, List.append_nil]

theorem foldl_checkLinkStep_broken (docsPath : String) (fsPaths : List String)
    (filePath relFile fileDir : String) (L : List MarkdownLink) :
    ∀ st : CheckState,
      (L.foldl (checkLinkStep docsPath fsPaths filePath relFile fileDir) st).res.brokenLinks =
        st.res.brokenLinks ++
          (L.filter (fun l =>
            l.isInternal && !(fsPaths.contains (resolveLink l.url fileDir docsPath)))).map
            (fun l => BrokenLink.mk relFile l.url l.lineNumber l.text
              "Target file does not exist") := by
  induction L with
  | nil => intro st; simp
  | cons l L ih =>
    intro st
    rw [List.foldl_cons, ih, checkLinkStep_broken]
    by_cases hc : (l.isInternal &&
        !(fsPaths.contains (resolveLink l.url fileDir docsPath))) = true
    · rw [if_pos hc, List.filter_cons, if_pos hc, List.map_cons, List.append_assoc]
      rfl
    · rw [if_neg hc, List.append_nil, List.filter_cons, if_neg hc]

theorem checkFileStep_broken (docsPath : String) (fsPaths : List String)
    (st : CheckState) (f : String × String) :
    (checkFileStep docsPath fsPaths st f).res.brokenLinks =
      st.res.brokenLinks ++ perFileBroken docsPath fsPaths f :=
  foldl_checkLinkStep_broken docsPath fsPaths f.1 (relativeStr docsPath f.1)
    (dirnameStr f.1) (extractLinks f.2) st

theorem foldl_checkFileStep_broken (docsPath : String) (fsPaths : List String)
    (fs : List (String × String)) :
    ∀ st : CheckState,
      (fs.foldl (checkFileStep docsPath fsPaths) st).res.brokenLinks =
        st.res.brokenLinks ++ (fs.map (perFileBroken docsPath fsPaths)).flatten := by
  induction fs with
  | nil => intro st; simp
  | cons f fs ih =>
    intro st
    rw [List.foldl_cons, ih, checkFileStep_broken, List.map_cons, List.flatten_cons,
      List.append_assoc]

theorem checkLinks_brokenLinks_eq (docsPath : String) (files : List (String × String))
    (fsPaths : List String) :
    (checkLinks docsPath Option.none files fsPaths).brokenLinks =
      expectedBrokenLinks docsPath files fsPaths := by
  unfold checkLinks expectedBrokenLinks
  dsimp only
  rw [foldl_checkFileStep_broken]
  rfl

/-- Claim C5 (amended): every internal link whose resolved target does not
exist yields exactly one broken entry, in corpus order, carrying the
original target string, the link text, the 1-based line number and the
reason `"Target file does not exist"` (the source literal — the claim's
quoted reason `"target does not exist"` does not occur); and the graph
builder adds edges only towards known nodes, so such a link contributes no
edge. -/
theorem checkLinks_broken_record (docsPath : String) (files : List (String × String))
    (fsPaths : List String) :
    ((checkLinks docsPath Option.none files fsPaths).brokenLinks =
        expectedBrokenLinks docsPath files fsPaths ∧
     ∀ e ∈ (buildLinkGraph docsPath files).edges,
        e.target ∈ keyList (buildLinkGraph docsPath files).nodes) :=
  ⟨checkLinks_brokenLinks_eq docsPath files fsPaths,
   buildLinkGraph_edge_target docsPath files⟩

/-- Claim C5 (counterexample to the claim as stated): the missing-target
scenario records exactly one broken entry, but its reason is the string
`"Target file does not exist"`, not `"target does not exist"`; no edge is
produced. -/
theorem checkLinks_reason_counterexample :
    (checkLinks "docs" Option.none [("docs/a.md", "[x](../missing/file.md)")]
        ["docs/a.md"]).brokenLinks =
      [BrokenLink.mk "a.md" "../missing/file.md" 1 "x" "Target file does not exist"] ∧
    ((checkLinks "docs" Option.none [("docs/a.md", "[x](../missing/file.md)")]
        ["docs/a.md"]).brokenLinks.all
      (fun e => e.reason != "target does not exist")) = true ∧
    (buildLinkGraph "docs" [("docs/a.md", "[x](../missing/file.md)")]).edges = [] := by
  refine ⟨?_, ?_, ?_⟩ <;> decide

/-- Witness for C5 at concrete inputs: the broken-entry equation at the
missing-target corpus, and the target-is-a-node fact for a resolved edge. -/
theorem checkLinks_broken_record_witness :
    (checkLinks "docs" Option.none [("docs/a.md", "[x](../missing/file.md)")]
        ["docs/a.md"]).brokenLinks =
      expectedBrokenLinks "docs" [("docs/a.md", "[x](../missing/file.md)")] ["docs/a.md"] ∧
    "b.md" ∈ keyList (buildLinkGraph "docs"
        [("docs/a.md", "[x](b.md)"), ("docs/b.md", "")]).nodes := by
  constructor
  · exact (checkLinks_broken_record "docs" [("docs/a.md", "[x](../missing/file.md)")]
      ["docs/a.md"]).1
  · exact (checkLinks_broken_record "docs" [("docs/a.md", "[x](b.md)"), ("docs/b.md", "")]
      []).2 (LinkEdge.mk "a.md" "b.md" "x" 1) (by decide)

set_option maxHeartbeats 1000000 in
theorem pickWinner_spec (s : TierScores) :
    (∀ t : Tier, s.get t ≤ s.get (pickWinner s)) ∧
    (∀ t : Tier, tierIdx t < tierIdx (pickWinner s) → s.get t < s.get (pickWinner s)) := by
  unfold pickWinner TIERS
  simp only [List.foldl, TierScores.get]
  constructor <;> intro t <;> cases t <;> split_ifs <;>
    (dsimp only [TierScores.get, tierIdx] at *) <;> omega

/-- Claim C6 (amended): `classifyTier` returns a tier of maximal accumulated
score, with ties broken by the fixed `TIERS` iteration order (the
first-listed tier among the maxima wins; `guide` wins only ties it takes
part in, including the all-zero case). -/
theorem classifyTier_winner (content : String) :
    (∀ t : Tier, (classifyTier content).scores.get t ≤
        (classifyTier content).scores.get (classifyTier content).tier) ∧
    (∀ t : Tier, tierIdx t < tierIdx (classifyTier content).tier →
        (classifyTier content).scores.get t <
          (classifyTier content).scores.get (classifyTier content).tier) := by
  have h : (classifyTier content).tier = pickWinner (classifyTier content).scores := rfl
  rw [h]
  exact pickWinner_spec (classifyTier content).scores

/-- Witness for C6 at a concrete input. -/
theorem classifyTier_winner_witness :
    (classifyTier "must sample").scores.get Tier.guide ≤
      (classifyTier "must sample").scores.get (classifyTier "must sample").tier :=
  (classifyTier_winner "must sample").1 Tier.guide

/-- Claim C6 (counterexample to the claim as stated): on `"must sample"`
the tiers `standard` and `example` tie for the highest score (2 each), yet
the returned tier is `standard`, not `guide`. -/
theorem classifyTier_tie_counterexample :
    (classifyTier "must sample").scores.get Tier.standard =
      (classifyTier "must sample").scores.get Tier.«example» ∧
    (classifyTier "must sample").scores.get Tier.standard = 2 ∧
    (TIERS.all (fun t => (classifyTier "must sample").scores.get t ≤ 2)) = true ∧
    (classifyTier "must sample").tier = Tier.standard := by
  refine ⟨?_, ?_, ?_, ?_⟩ <;> decide

theorem mem_insertQDesc (x : ℚ) (l : List ℚ) (a : ℚ) :
    a ∈ insertQDesc x l ↔ a = x ∨ a ∈ l := by
  induction l with
  | nil => simp [insertQDesc]
  | cons y ys ih =>
    unfold insertQDesc
    by_cases h : x ≥ y
    · rw [if_pos h]
      simp only [List.mem_cons]
    · rw [if_neg h]
      simp only [List.mem_cons, ih]
      tauto

theorem sorted_insertQDesc (x : ℚ) (l : List ℚ) (h : l.Sorted (· ≥ ·)) :
    (insertQDesc x l).Sorted (· ≥ ·) := by
  induction l with
  | nil => simp [insertQDesc]
  | cons y ys ih =>
    rw [List.sorted_cons] at h
    unfold insertQDesc
    by_cases hxy : x ≥ y
    · rw [if_pos hxy, List.sorted_cons]
      constructor
      · intro b hb
        rcases List.mem_cons.mp hb with rfl | hb2
        · exact hxy
        · exact le_trans (h.1 b hb2) hxy
      · rw [List.sorted_cons]
        exact h
    · rw [if_neg hxy, List.sorted_cons]
      constructor
      · intro b hb
        rcases (mem_insertQDesc x ys b).mp hb with rfl | hb2
        · exact le_of_lt (not_le.mp hxy)
        · exact h.1 b hb2
      · exact ih h.2

theorem sorted_sortQDesc (l : List ℚ) : (sortQDesc l).Sorted (· ≥ ·) := by
  induction l with
  | nil => simp [sortQDesc]
  | cons x xs ih => exact sorted_insertQDesc x _ ih

theorem length_insertQDesc (x : ℚ) (l : List ℚ) :
    (insertQDesc x l).length = l.length + 1 := by
  induction l with
  | nil => rfl
  | cons y ys ih =>
    unfold insertQDesc
    by_cases h : x ≥ y
    · rw [if_pos h]; rfl
    · rw [if_neg h]
      simp only [List.length_cons, ih]

theorem length_sortQDesc (l : List ℚ) : (sortQDesc l).length = l.length := by
  induction l with
  | nil => rfl
  | cons x xs ih =>
    show (insertQDesc x (sortQDesc xs)).length = xs.length + 1
    rw [length_insertQDesc, ih]

theorem mem_sortQDesc (l : List ℚ) (a : ℚ) : a ∈ sortQDesc l ↔ a ∈ l := by
  induction l with
  | nil => simp [sortQDesc]
  | cons x xs ih =>
    show a ∈ insertQDesc x (sortQDesc xs) ↔ _
    rw [mem_insertQDesc, ih, List.mem_cons]

theorem confidenceOf_bounds (s : TierScores) :
    (confidenceOf s =
      (if (sortedTierValues s).getD 0 0 > 0 then
        min (1/2 + (3/10) * (((sortedTierValues s).getD 0 0 -
              (sortedTierValues s).getD 1 0) / (sortedTierValues s).getD 0 0) +
            (1/5) * ((sortedTierValues s).getD 0 0 / 100)) (19/20)
      else 1/2) ∧
     1/2 ≤ confidenceOf s ∧ confidenceOf s ≤ 19/20) := by
  obtain ⟨a, b, rest, he⟩ : ∃ a b rest, sortedTierValues s = a :: b :: rest := by
    have hlen : (sortedTierValues s).length = 5 := by
      show (sortQDesc (tierValuesList s)).length = 5
      rw [length_sortQDesc]
      rfl
    match hm : sortedTierValues s with
    | [] => rw [hm] at hlen; simp at hlen
    | [a] => rw [hm] at hlen; simp at hlen
    | a :: b :: rest => exact ⟨a, b, rest, rfl⟩
  have hsorted := sorted_sortQDesc (tierValuesList s)
  rw [show sortQDesc (tierValuesList s) = sortedTierValues s from rfl, he,
    List.sorted_cons] at hsorted
  have hab : b ≤ a := hsorted.1 b (List.mem_cons_self b rest)
  have ha0 : 0 ≤ a := by
    have hmem : a ∈ tierValuesList s := by
      rw [← mem_sortQDesc]
      rw [show sortQDesc (tierValuesList s) = sortedTierValues s from rfl, he]
      exact List.mem_cons_self a (b :: rest)
    unfold tierValuesList at hmem
    rcases List.mem_cons.mp hmem with rfl | hmem
    · exact Nat.cast_nonneg _
    rcases List.mem_cons.mp hmem with rfl | hmem
    · exact Nat.cast_nonneg _
    rcases List.mem_cons.mp hmem with rfl | hmem
    · exact Nat.cast_nonneg _
    rcases List.mem_cons.mp hmem with rfl | hmem
    · exact Nat.cast_nonneg _
    rcases List.mem_cons.mp hmem with rfl | hmem
    · exact Nat.cast_nonneg _
    · cases hmem
  simp only [confidenceOf, he]
  rw [show ((a :: b :: rest).getD 0 0) = a from rfl,
    show ((a :: b :: rest).getD 1 0) = b from rfl]
  refine ⟨?_, ?_⟩
  · split_ifs with h
    · congr 1
      ring
    · rfl
  · split_ifs with h
    · have h1 : 0 ≤ (a - b) / a := div_nonneg (sub_nonneg.mpr hab) (le_of_lt h)
      have h1b : 0 ≤ (a - b) / a * (3/10) := mul_nonneg h1 (by norm_num)
      have h2 : 0 ≤ a / 100 * (1/5) :=
        mul_nonneg (div_nonneg ha0 (by norm_num)) (by norm_num)
      constructor
      · apply le_min
        · linarith
        · norm_num
      · exact min_le_right _ _
    · norm_num

/-- Claim C7: the tier-classification confidence equals the blended formula
`min(1/2 + 3/10·((top − second)/top) + 1/5·(top/100), 19/20)` when the top
score is positive, and exactly `1/2` otherwise; consequently it always lies
in `[1/2, 19/20]`. -/
theorem classifyTier_confidence (content : String) :
    ((classifyTier content).confidence =
      (if (sortedTierValues (classifyTier content).scores).getD 0 0 > 0 then
        min (1/2 + (3/10) * (((sortedTierValues (classifyTier content).scores).getD 0 0 -
              (sortedTierValues (classifyTier content).scores).getD 1 0) /
              (sortedTierValues (classifyTier content).scores).getD 0 0) +
            (1/5) * ((sortedTierValues (classifyTier content).scores).getD 0 0 / 100))
          (19/20)
      else 1/2) ∧
     1/2 ≤ (classifyTier content).confidence ∧
     (classifyTier content).confidence ≤ 19/20) := by
  have h : (classifyTier content).confidence = confidenceOf (classifyTier content).scores :=
    rfl
  rw [h]
  exact confidenceOf_bounds (classifyTier content).scores

/-- Claim C9: a two-node mutual reference (`A → B`, `B → A`) yields exactly
one cycle entry, `[A, B]` (the duplicate discovery is collapsed by the
sorted canonical key), and in a corpus where both mutually-linked files
exist the link checker records no broken link. -/
theorem detectCircular_two_node (A B : String) (hAB : A ≠ B) :
    detectCircularDependencies [(A, [B]), (B, [A])] =
      [CircularDependency.mk [A, B]] ∧
    (checkLinks "docs" Option.none
        [("docs/a.md", "[x](b.md)"), ("docs/b.md", "[y](a.md)")]
        ["docs/a.md", "docs/b.md"]).brokenLinks = [] := by
  have hBA : B ≠ A := Ne.symm hAB
  constructor
  · have hfuel : dfsFuel [(A, [B]), (B, [A])] = 5 := rfl
    simp [detectCircularDependencies, rawCycles, dedupCycles, dfs, graphGet,
      strListHas, strIndexOf, hfuel, hAB, hBA]
  · decide

/-- Witness for C9 at concrete node names. -/
theorem detectCircular_two_node_witness :
    detectCircularDependencies [("a.ts", ["b.ts"]), ("b.ts", ["a.ts"])] =
      [CircularDependency.mk ["a.ts", "b.ts"]] :=
  (detectCircular_two_node "a.ts" "b.ts" (by decide)).1

/-- Claim C10: cycle detection returns at most 10 cycles — the result is by
definition the deduplicated list truncated to the first 10 unique cycles in
discovery order — and a graph of 11 independent self-loops indeed yields
exactly 10 entries, silently dropping the eleventh. -/
theorem detectCircularDependencies_limit (g : List (String × List String)) :
    ((detectCircularDependencies g).length ≤ 10 ∧
     detectCircularDependencies g =
       ((dedupCycles (rawCycles g)).take 10).map CircularDependency.mk ∧
     (detectCircularDependencies
       [("n01", ["n01"]), ("n02", ["n02"]), ("n03", ["n03"]), ("n04", ["n04"]),
        ("n05", ["n05"]), ("n06", ["n06"]), ("n07", ["n07"]), ("n08", ["n08"]),
        ("n09", ["n09"]), ("n10", ["n10"]), ("n11", ["n11"])]).length = 10) := by
  refine ⟨?_, rfl, by decide⟩
  show (((dedupCycles (rawCycles g)).take 10).map CircularDependency.mk).length ≤ 10
  rw [List.length_map, List.length_take]
  exact min_le_left _ _
